import Mathlib

/-!
Verification of the ZongoDB schema-path engine and transform/update pipeline.

We shallowly embed the TypeScript source:
* `src/src/util.ts` — `unwrapSchema`, `verifySchemaAndCheckIfUndefinedCanExist`,
  `getSetAndUnset`;
* `src/src/database.ts` (current revision, second half of the file) —
  `createSchemaPathMap`, `getVerifiedQuery`, `getSchemaAtPath`,
  `addPathParentsToQuery`, `update`, `transform`, `transformMany`,
  `createIndex`, constructor;
* `src/README.md` (embedded revision) — `checkTransactionSupport`,
  `transformOne` strategy dispatch.

Zod schemas are modelled as an inductive AST mirroring the
`z.ZodFirstPartyTypeKind` tags the code dispatches on.  The zod library's
`parse` is an external collaborator and is abstracted as a function
parameter where needed.  JavaScript objects touched by the splitter are
modelled as an inductive value type; the aliasing that `update` exhibits is
modelled with an explicit reference heap.
-/

namespace Zongo

/-! ### Schema AST

Constructors mirror the `ZodFirstPartyTypeKind` tags tested by the
`isZod...` helpers in `src/src/util.ts`.  `zMap`, `zSet`, `zIntersection`,
`zFunction`, `zVoid`, `zBigInt`, `zLazy` and `zPromise` carry no children
because the code never inspects their inner types (it rejects them before
descending).  `zLiteral` records only whether the literal value is a
JavaScript bigint, the sole property of the value the code tests. -/

mutual

inductive ZSchema : Type where
  | zString : ZSchema
  | zNumber : ZSchema
  | zBoolean : ZSchema
  | zDate : ZSchema
  | zNaN : ZSchema
  | zEnum : ZSchema
  | zNativeEnum : ZSchema
  | zUndefined : ZSchema
  | zNull : ZSchema
  | zLiteral (isBigInt : Bool) : ZSchema
  | zOptional (inner : ZSchema) : ZSchema
  | zDefault (inner : ZSchema) : ZSchema
  | zNullable (inner : ZSchema) : ZSchema
  | zEffects (inner : ZSchema) : ZSchema
  | zArray (elem : ZSchema) : ZSchema
  | zRecord (value : ZSchema) : ZSchema
  | zObject (fields : ZFields) : ZSchema
  | zTuple (items : ZList) : ZSchema
  | zUnion (options : ZList) : ZSchema
  | zDiscriminatedUnion (options : ZList) : ZSchema
  | zMap : ZSchema
  | zSet : ZSchema
  | zIntersection : ZSchema
  | zFunction : ZSchema
  | zVoid : ZSchema
  | zBigInt : ZSchema
  | zLazy : ZSchema
  | zPromise : ZSchema
  deriving DecidableEq

inductive ZFields : Type where
  | nil : ZFields
  | cons (key : String) (s : ZSchema) (rest : ZFields) : ZFields
  deriving DecidableEq

inductive ZList : Type where
  | nil : ZList
  | cons (s : ZSchema) (rest : ZList) : ZList
  deriving DecidableEq

end

/-- Keys of an object shape, in declaration order (`for key in shape`). -/
def ZFields.keys : ZFields → List String
  | .nil => []
  | .cons k _ rest => k :: rest.keys

/-- The field schemas of an object shape, in declaration order. -/
def ZFields.entries : ZFields → List (String × ZSchema)
  | .nil => []
  | .cons k s rest => (k, s) :: rest.entries

/-- The elements of a schema list, as a `List`. -/
def ZList.toList : ZList → List ZSchema
  | .nil => []
  | .cons s rest => s :: rest.toList

/-- `ZongoUtil.unwrapSchema` (src/src/util.ts lines 233-250): repeatedly
strips `ZodOptional` / `ZodNullable` (via `innerType`) and `ZodEffects`
(via `schema`) wrappers; every other constructor stops the loop.  Note
that `ZodDefault` is NOT unwrapped. -/
def unwrapSchema : ZSchema → ZSchema
  | .zOptional inner => unwrapSchema inner
  | .zNullable inner => unwrapSchema inner
  | .zEffects inner => unwrapSchema inner
  | s => s

/-! ### `ZongoUtil.verifySchemaAndCheckIfUndefinedCanExist`
(src/src/util.ts lines 27-95).  The branches are reproduced in source
order; a thrown `Error` is an `Except.error` carrying the message.  The
`.map(...)` calls over union options / object shape / tuple items evaluate
every element, so an error in any child propagates. -/

mutual

def verifySchemaAndCheckIfUndefinedCanExist : ZSchema → Except String Bool
  | .zUndefined => .ok true
  | .zSet => .error "ZodSet is not currently supported in Zongo schemas, consider using arrays instead."
  | .zMap => .error "ZodMap is not currently supported in Zongo schemas, consider using objects/records instead."
  | .zIntersection => .error "ZodIntersection is not currently supported in Zongo schemas, consider using the merge method instead."
  | .zLiteral isBigInt =>
    if isBigInt then .error "BigInt is not supported in Zongo schemas."
    else .ok false
  | .zBoolean => .ok false
  | .zDate => .ok false
  | .zEnum => .ok false
  | .zNativeEnum => .ok false
  | .zNaN => .ok false
  | .zNumber => .ok false
  | .zString => .ok false
  | .zOptional inner => do
    let _ ← verifySchemaAndCheckIfUndefinedCanExist inner
    return true
  | .zDefault inner => do
    let _ ← verifySchemaAndCheckIfUndefinedCanExist inner
    return true
  | .zArray elem => verifySchemaAndCheckIfUndefinedCanExist elem
  | .zUnion options => do
    let results ← verifyZList options
    return results.any id
  | .zDiscriminatedUnion options => do
    let results ← verifyZList options
    return results.any id
  | .zNullable inner => verifySchemaAndCheckIfUndefinedCanExist inner
  | .zEffects inner => verifySchemaAndCheckIfUndefinedCanExist inner
  | .zObject fields => do
    let results ← verifyZFields fields
    return results.any id
  | .zRecord value => verifySchemaAndCheckIfUndefinedCanExist value
  | .zTuple items => do
    let results ← verifyZList items
    return results.any id
  | .zNull => .error "ZodNull is not supported in Zongo schemas."
  | .zFunction => .error "ZodFunction is not supported in Zongo schemas."
  | .zVoid => .error "ZodVoid is not supported in Zongo schemas."
  | .zBigInt => .error "ZodBigInt is not supported in Zongo schemas."
  | .zLazy => .error "ZodLazy is not supported in Zongo schemas."
  | .zPromise => .error "ZodPromise is not supported in Zongo schemas."

def verifyZList : ZList → Except String (List Bool)
  | .nil => .ok []
  | .cons s rest => do
    let b ← verifySchemaAndCheckIfUndefinedCanExist s
    let bs ← verifyZList rest
    return b :: bs

def verifyZFields : ZFields → Except String (List Bool)
  | .nil => .ok []
  | .cons _ s rest => do
    let b ← verifySchemaAndCheckIfUndefinedCanExist s
    let bs ← verifyZFields rest
    return b :: bs

end

/-! ### Unsupported constructs (claim-side predicate)

A schema "contains an unsupported construct" when a map or set collection
type, a type intersection, a function, a void, or a bigint (including a
bigint literal) occurs anywhere in its tree, the tree being spanned by all
child-carrying constructors of the AST. -/

mutual

def containsUnsupported : ZSchema → Bool
  | .zMap => true
  | .zSet => true
  | .zIntersection => true
  | .zFunction => true
  | .zVoid => true
  | .zBigInt => true
  | .zLiteral isBigInt => isBigInt
  | .zOptional inner => containsUnsupported inner
  | .zDefault inner => containsUnsupported inner
  | .zNullable inner => containsUnsupported inner
  | .zEffects inner => containsUnsupported inner
  | .zArray elem => containsUnsupported elem
  | .zRecord value => containsUnsupported value
  | .zObject fields => containsUnsupportedFields fields
  | .zTuple items => containsUnsupportedList items
  | .zUnion options => containsUnsupportedList options
  | .zDiscriminatedUnion options => containsUnsupportedList options
  | _ => false

def containsUnsupportedFields : ZFields → Bool
  | .nil => false
  | .cons _ s rest => containsUnsupported s || containsUnsupportedFields rest

def containsUnsupportedList : ZList → Bool
  | .nil => false
  | .cons s rest => containsUnsupported s || containsUnsupportedList rest

end

theorem bind_isOk_false {α β : Type} {e : Except String α}
    (f : α → Except String β) (h : e.isOk = false) :
    (e >>= f).isOk = false := by
  cases e with
  | ok v => simp [Except.isOk, Except.toBool] at h
  | error m => rfl

theorem bind2_isOk_false {α β γ : Type} {a : Except String α}
    {c : Except String γ} (f : α → γ → β) (h : c.isOk = false) :
    (a >>= fun x => c >>= fun y => pure (f x y)).isOk = false := by
  cases a with
  | ok v =>
    show (c >>= fun y => pure (f v y)).isOk = false
    exact bind_isOk_false _ h
  | error m => rfl

mutual

/-- Any schema containing an unsupported construct makes the verifier
throw: the verifier traverses every child of every supported constructor
and its final `else` rejects every construct it does not handle. -/
theorem verify_err : ∀ s : ZSchema, containsUnsupported s = true →
    (verifySchemaAndCheckIfUndefinedCanExist s).isOk = false
  | .zMap, _ => by decide
  | .zSet, _ => by decide
  | .zIntersection, _ => by decide
  | .zFunction, _ => by decide
  | .zVoid, _ => by decide
  | .zBigInt, _ => by decide
  | .zNull, _ => by decide
  | .zLazy, _ => by decide
  | .zPromise, _ => by decide
  | .zLiteral b, h => by
    simp only [containsUnsupported] at h
    subst h
    decide
  | .zString, h => by simp [containsUnsupported] at h
  | .zNumber, h => by simp [containsUnsupported] at h
  | .zBoolean, h => by simp [containsUnsupported] at h
  | .zDate, h => by simp [containsUnsupported] at h
  | .zNaN, h => by simp [containsUnsupported] at h
  | .zEnum, h => by simp [containsUnsupported] at h
  | .zNativeEnum, h => by simp [containsUnsupported] at h
  | .zUndefined, h => by simp [containsUnsupported] at h
  | .zOptional inner, h => by
    simp only [containsUnsupported] at h
    simpa [verifySchemaAndCheckIfUndefinedCanExist] using
      bind_isOk_false _ (verify_err inner h)
  | .zDefault inner, h => by
    simp only [containsUnsupported] at h
    simpa [verifySchemaAndCheckIfUndefinedCanExist] using
      bind_isOk_false _ (verify_err inner h)
  | .zNullable inner, h => by
    simp only [containsUnsupported] at h
    simpa [verifySchemaAndCheckIfUndefinedCanExist] using verify_err inner h
  | .zEffects inner, h => by
    simp only [containsUnsupported] at h
    simpa [verifySchemaAndCheckIfUndefinedCanExist] using verify_err inner h
  | .zArray elem, h => by
    simp only [containsUnsupported] at h
    simpa [verifySchemaAndCheckIfUndefinedCanExist] using verify_err elem h
  | .zRecord value, h => by
    simp only [containsUnsupported] at h
    simpa [verifySchemaAndCheckIfUndefinedCanExist] using verify_err value h
  | .zObject fields, h => by
    simp only [containsUnsupported] at h
    simpa [verifySchemaAndCheckIfUndefinedCanExist] using
      bind_isOk_false _ (verify_err_fields fields h)
  | .zTuple items, h => by
    simp only [containsUnsupported] at h
    simpa [verifySchemaAndCheckIfUndefinedCanExist] using
      bind_isOk_false _ (verify_err_list items h)
  | .zUnion options, h => by
    simp only [containsUnsupported] at h
    simpa [verifySchemaAndCheckIfUndefinedCanExist] using
      bind_isOk_false _ (verify_err_list options h)
  | .zDiscriminatedUnion options, h => by
    simp only [containsUnsupported] at h
    simpa [verifySchemaAndCheckIfUndefinedCanExist] using
      bind_isOk_false _ (verify_err_list options h)

theorem verify_err_list : ∀ l : ZList, containsUnsupportedList l = true →
    (verifyZList l).isOk = false
  | .nil, h => by simp [containsUnsupportedList] at h
  | .cons s rest, h => by
    simp only [containsUnsupportedList, Bool.or_eq_true] at h
    rcases h with h | h
    · simpa [verifyZList] using bind_isOk_false _ (verify_err s h)
    · simpa [verifyZList] using
        bind2_isOk_false List.cons (verify_err_list rest h)

theorem verify_err_fields : ∀ f : ZFields, containsUnsupportedFields f = true →
    (verifyZFields f).isOk = false
  | .nil, h => by simp [containsUnsupportedFields] at h
  | .cons _ s rest, h => by
    simp only [containsUnsupportedFields, Bool.or_eq_true] at h
    rcases h with h | h
    · simpa [verifyZFields] using bind_isOk_false _ (verify_err s h)
    · simpa [verifyZFields] using
        bind2_isOk_false List.cons (verify_err_fields rest h)

end

/-! ### `createSchemaPathMap` (src/src/database.ts lines 1580-1637)

The flattened map of one collection is an insertion-ordered association
list from dotted path to schema (`result[collection][path] = ...` on a
plain JS object preserves insertion order and overwrites in place). -/

abbrev PathMap := List (String × ZSchema)

/-- JS property read `m[path]`. -/
def lookupPath (m : PathMap) (p : String) : Option ZSchema :=
  match m with
  | [] => none
  | (k, s) :: rest => if k = p then some s else lookupPath rest p

/-- JS property write `m[path] = s`: overwrite in place, append if new. -/
def setPath (m : PathMap) (p : String) (s : ZSchema) : PathMap :=
  match m with
  | [] => [(p, s)]
  | (k, s') :: rest => if k = p then (k, s) :: rest else (k, s') :: setPath rest p s

/-- `ZodUtil.isSchemaOfType(schema, z.ZodFirstPartyTypeKind.ZodUnion)`:
only a plain `ZodUnion` matches (a discriminated union has a different
type tag). -/
def isZodUnionSchema : ZSchema → Bool
  | .zUnion _ => true
  | _ => false

/-- `schema._def.options` of a (discriminated) union. -/
def unionOptionsOf : ZSchema → ZList
  | .zUnion options => options
  | .zDiscriminatedUnion options => options
  | _ => .nil

/-- Append for schema lists (JS array spread `[...existingOptions, schema]`). -/
def ZList.append : ZList → ZList → ZList
  | .nil, l => l
  | .cons s rest, l => .cons s (rest.append l)

/-- `path ? path + "." + key : key`. -/
def joinPath (path key : String) : String :=
  if path = "" then key else path ++ "." ++ key

/-- The map-write part of one loop iteration (lines 1593-1606): store a
first schema as-is; merge an ordinary collision into a (possibly
extended) union; leave a native-union path untouched. -/
def storeOrMerge (m : PathMap) (native : List String) (path : String)
    (schema : ZSchema) : PathMap :=
  match lookupPath m path with
  | none => setPath m path schema
  | some existing =>
    if path ∈ native then m
    else if isZodUnionSchema existing then
      setPath m path (.zUnion ((unionOptionsOf existing).append (.cons schema .nil)))
    else
      setPath m path (.zUnion (.cons existing (.cons schema .nil)))

/-- The entries pushed for the unwrapped schema (lines 1607-1632), in
`stack.push` order: object fields (declaration order), union /
discriminated-union branches at the *same* path, tuple items with the
decimal index as path segment. -/
def childEntries : ZSchema → String → List (ZSchema × String)
  | .zObject fields, path => fields.entries.map (fun e => (e.2, joinPath path e.1))
  | .zUnion options, path => options.toList.map (fun o => (o, path))
  | .zDiscriminatedUnion options, path => options.toList.map (fun o => (o, path))
  | .zTuple items, path =>
    items.toList.enum.map (fun e => (e.2, joinPath path (toString e.1)))
  | _, _ => []

/-- Union check performed by the branch at lines 1616-1624. -/
def isUnionKind : ZSchema → Bool
  | .zUnion _ => true
  | .zDiscriminatedUnion _ => true
  | _ => false

/-- `nativeUnionPaths.add(path)` (a JS `Set`). -/
def addNative (p : String) (native : List String) : List String :=
  if p ∈ native then native else p :: native

/-- The walker state: explicit stack (head is the top), the map built so
far and the native-union path set of the current collection. -/
structure FlattenState where
  stack : List (ZSchema × String)
  pathMap : PathMap
  nativeUnionPaths : List String
  deriving DecidableEq

/-- One iteration of the `while (stack.length > 0)` loop: pop, write the
(wrapped) schema to the map unless the path is empty, then dispatch on
the unwrapped schema to push children and (for unions) mark the path as
a native-union path.  Pushing the children one by one leaves them on the
stack in reverse push order. -/
def flattenStep : FlattenState → FlattenState
  | ⟨[], m, native⟩ => ⟨[], m, native⟩
  | ⟨(schema, path) :: rest, m, native⟩ =>
    let m' := if path = "" then m else storeOrMerge m native path schema
    let unwrapped := unwrapSchema schema
    let native' := if isUnionKind unwrapped then addNative path native else native
    let stack' := (childEntries unwrapped path).reverse ++ rest
    ⟨stack', m', native'⟩

/-- The whole loop, fuelled; `none` when the fuel runs out before the
stack empties (on any input actually flattened the loop terminates, and
every concrete run below returns `some`). -/
def flattenLoop : Nat → FlattenState → Option (PathMap × List String)
  | 0, st =>
    match st.stack with
    | [] => some (st.pathMap, st.nativeUnionPaths)
    | _ => none
  | fuel + 1, st =>
    match st.stack with
    | [] => some (st.pathMap, st.nativeUnionPaths)
    | _ => flattenLoop fuel (flattenStep st)

/-- Flatten one collection schema: the stack starts with the root schema
at the empty path, the map and native-union set start empty. -/
def flattenSchema (fuel : Nat) (schema : ZSchema) : Option (PathMap × List String) :=
  flattenLoop fuel ⟨[(schema, "")], [], []⟩

/-- `createSchemaPathMap`: one flattened map per collection. -/
def createSchemaPathMap (fuel : Nat) (schemas : List (String × ZSchema)) :
    Option (List (String × PathMap)) :=
  match schemas with
  | [] => some []
  | (c, s) :: rest => do
    let (m, _) ← flattenSchema fuel s
    let others ← createSchemaPathMap fuel rest
    return (c, m) :: others

/-! ### Constructor (src/src/database.ts lines 882-948)

Order of the modelled effects: the `_id`-collision check over all
schemas, then `createSchemaPathMap`, then the per-collection
`verifySchemaAndCheckIfUndefinedCanExist` loop filling
`collectionsWithOptionalFields`.  `transactionsSupported` starts `null`
(line 880 / README line 231). -/

/-- `schema.shape` keys of a collection schema (always a `ZodObject`). -/
def shapeKeys : ZSchema → List String
  | .zObject fields => fields.keys
  | _ => []

def checkProtectedIdField : List (String × ZSchema) → Except String Unit
  | [] => .ok ()
  | (_, s) :: rest =>
    if "_id" ∈ shapeKeys s then
      .error "Schema cannot contain MongoDB protected _id field!"
    else checkProtectedIdField rest

def collectOptionalFields : List (String × ZSchema) → Except String (List String)
  | [] => .ok []
  | (c, s) :: rest => do
    let b ← verifySchemaAndCheckIfUndefinedCanExist s
    let others ← collectOptionalFields rest
    return (if b then [c] else []) ++ others

structure ZongoFacade where
  flattenedSchemas : Option (List (String × PathMap))
  collectionsWithOptionalFields : List String
  transactionsSupported : Option Bool
  deriving DecidableEq

def zongoConstructor (fuel : Nat) (schemas : List (String × ZSchema)) :
    Except String ZongoFacade := do
  let _ ← checkProtectedIdField schemas
  let flattened := createSchemaPathMap fuel schemas
  let optionals ← collectOptionalFields schemas
  return { flattenedSchemas := flattened
           collectionsWithOptionalFields := optionals
           transactionsSupported := none }

theorem except_seq_isOk_false {α β γ : Type} (a : Except String α)
    {c : Except String γ} (g : γ → β) (h : c.isOk = false) :
    (a >>= fun _ => c >>= fun y => pure (g y)).isOk = false := by
  cases a with
  | error m => rfl
  | ok v =>
    show (c >>= fun y => pure (g y)).isOk = false
    exact bind_isOk_false _ h

theorem collectOptionalFields_isOk_false :
    ∀ schemas : List (String × ZSchema),
      schemas.any (fun e => containsUnsupported e.2) = true →
      (collectOptionalFields schemas).isOk = false := by
  intro schemas h
  induction schemas with
  | nil => simp at h
  | cons hd tl ih =>
    simp only [List.any_cons, Bool.or_eq_true] at h
    rcases h with h | h
    · simpa [collectOptionalFields] using bind_isOk_false _ (verify_err hd.2 h)
    · simpa [collectOptionalFields] using
        bind2_isOk_false (fun (b : Bool) others =>
          (if b then [hd.1] else []) ++ others) (ih h)

/-- C6: a schema containing an unsupported construct anywhere in its tree
makes the `ZongoDB` constructor throw: either the `_id`-collision check
throws first, or the `collectionsWithOptionalFields` loop reaches the
collection and `verifySchemaAndCheckIfUndefinedCanExist` rejects the
construct.  Construction never completes. -/
theorem constructor_throws_on_unsupported_construct
    (fuel : Nat) (schemas : List (String × ZSchema))
    (h : schemas.any (fun e => containsUnsupported e.2) = true) :
    (zongoConstructor fuel schemas).isOk = false := by
  exact except_seq_isOk_false (checkProtectedIdField schemas)
    (fun optionals =>
      ({ flattenedSchemas := createSchemaPathMap fuel schemas
         collectionsWithOptionalFields := optionals
         transactionsSupported := none } : ZongoFacade))
    (collectOptionalFields_isOk_false schemas h)

/-- Witness for C6: a collection whose schema nests a `ZodSet` inside an
optional object field is rejected at construction time. -/
theorem constructor_throws_on_unsupported_construct_witness :
    ([("users", ZSchema.zObject (.cons "tags"
        (.zOptional (.zObject (.cons "s" .zSet .nil))) .nil))].any
      (fun e => containsUnsupported e.2) = true) ∧
    (zongoConstructor 10 [("users", ZSchema.zObject (.cons "tags"
        (.zOptional (.zObject (.cons "s" .zSet .nil))) .nil))]).isOk = false :=
  ⟨by decide, constructor_throws_on_unsupported_construct 10 _ (by decide)⟩

/-- C1 counterexample: flattening `{ x: optional(union([string, number])) }`
stores, at path `"x"`, a map entry for the popped union-bearing schema
itself (the wrapped union), and the subsequently popped branches leave
that entry untouched: the final entry is the `ZodOptional` wrapper — not
a union whose option list accumulated the branches — contradicting both
"do not store a map entry for the union itself" and "every subsequently
popped branch at a native-union path extends the stored union's option
list". -/
theorem createSchemaPathMap_union_claim_counterexample :
    flattenSchema 10 (.zObject (.cons "x"
        (.zOptional (.zUnion (.cons .zString (.cons .zNumber .nil)))) .nil)) =
      some ([("x", ZSchema.zOptional (.zUnion (.cons .zString (.cons .zNumber .nil))))],
            ["x"]) ∧
    isUnionKind (ZSchema.zOptional (.zUnion (.cons .zString (.cons .zNumber .nil)))) = false := by
  decide

/-- C1 (amended): when the flattener pops a schema whose unwrapped form is
a union (plain or discriminated) at some path, it first writes the popped
(wrapped) schema to the map exactly as for any other pop (store when
absent, ordinary union-merge when colliding at a non-native path, no
change at a native path), then marks the path as a native-union path and
pushes every branch at the same path; and any subsequently popped schema
at a path that is already mapped and already marked native-union leaves
the stored entry unchanged (no option list is extended). -/
theorem createSchemaPathMap_union_step
    (schema : ZSchema) (path : String) (rest : List (ZSchema × String))
    (m : PathMap) (native : List String) :
    (isUnionKind (unwrapSchema schema) = true →
      flattenStep ⟨(schema, path) :: rest, m, native⟩ =
        ⟨((unionOptionsOf (unwrapSchema schema)).toList.map
            (fun o => (o, path))).reverse ++ rest,
          if path = "" then m else storeOrMerge m native path schema,
          addNative path native⟩) ∧
    (path ≠ "" → path ∈ native → (lookupPath m path).isSome = true →
      (flattenStep ⟨(schema, path) :: rest, m, native⟩).pathMap = m) := by
  constructor
  · intro hu
    cases hs : unwrapSchema schema <;>
      rw [hs] at hu <;>
      simp_all [flattenStep, childEntries, unionOptionsOf, isUnionKind]
  · intro h1 h2 h3
    obtain ⟨existing, hl⟩ := Option.isSome_iff_exists.mp h3
    simp [flattenStep, storeOrMerge, hl, h1, h2]

/-- Witness for the amended C1: a popped optional-wrapped union at path
`"x"` is stored as-is, `"x"` is marked native, both branches are pushed at
`"x"`; and a later pop at the already-mapped native path `"y"` leaves the
map unchanged. -/
theorem createSchemaPathMap_union_step_witness :
    flattenStep ⟨[(ZSchema.zOptional (.zUnion (.cons .zString (.cons .zNumber .nil))), "x")],
        [], []⟩ =
      ⟨[(ZSchema.zNumber, "x"), (ZSchema.zString, "x")],
        [("x", ZSchema.zOptional (.zUnion (.cons .zString (.cons .zNumber .nil))))],
        ["x"]⟩ ∧
    (flattenStep ⟨[(ZSchema.zString, "y")], [("y", ZSchema.zNumber)], ["y"]⟩).pathMap =
      [("y", ZSchema.zNumber)] :=
  ⟨((createSchemaPathMap_union_step
      (.zOptional (.zUnion (.cons .zString (.cons .zNumber .nil)))) "x" [] [] []).1
      (by decide)).trans (by decide),
   (createSchemaPathMap_union_step .zString "y" [] [("y", ZSchema.zNumber)] ["y"]).2
      (by decide) (by decide) (by decide)⟩

/-! ### `ZongoUtil.getSetAndUnset` (src/src/util.ts lines 214-231)

JavaScript values reaching the splitter: `undefined`, `null`, scalar
primitives, `Date`s, arrays and plain objects.  Plain objects are
association lists in key insertion order (`for...in` order for string
keys). -/

mutual

inductive JVal : Type where
  | undef : JVal
  | jnull : JVal
  | prim (tag : String) : JVal
  | date : JVal
  | arr (elems : JArr) : JVal
  | obj (fields : JObj) : JVal
  deriving DecidableEq

inductive JObj : Type where
  | nil : JObj
  | cons (key : String) (v : JVal) (rest : JObj) : JObj
  deriving DecidableEq

inductive JArr : Type where
  | nil : JArr
  | cons (v : JVal) (rest : JArr) : JArr
  deriving DecidableEq

end

/-- Keys of a JS object, in insertion order. -/
def JObj.keys : JObj → List String
  | .nil => []
  | .cons k _ rest => k :: rest.keys

/-- JS property test `k in o`. -/
def JObj.hasKey : JObj → String → Bool
  | .nil, _ => false
  | .cons k _ rest, k' => k = k' || rest.hasKey k'

/-- `[...currentPath, key].join(".")`. -/
def dotJoin (currentPath : List String) (key : String) : String :=
  String.intercalate "." (currentPath ++ [key])

/-- The keys deleted by the splitter's inner `for (const key in obj)`
pass: keys whose value is `undefined`, in key order. -/
def undefKeys : JObj → List String
  | .nil => []
  | .cons k v rest =>
    (if v = .undef then [k] else []) ++ undefKeys rest

/-- The `unset` record built by that pass: the deleted keys joined onto
the current dotted path. -/
def undefKeysDotted (fields : JObj) (currentPath : List String) : List String :=
  match fields with
  | .nil => []
  | .cons k v rest =>
    (if v = .undef then [dotJoin currentPath k] else []) ++
      undefKeysDotted rest currentPath

/-- The recursion guard `typeof obj[key] === "object" && obj[key] !== null
&& !Array.isArray(obj[key])`: plain objects and `Date`s qualify (a `Date`
has no enumerable keys, so recursing into it is a no-op). -/
def isRecursableJS : JVal → Bool
  | .obj _ => true
  | .date => true
  | _ => false

mutual

/-- `ZongoUtil.getSetAndUnset`: returns `($set, $unset)` where `$set` is
the argument object after the in-place mutation (all `undefined`-valued
keys of the current level deleted, then each remaining object-typed child
mutated by the recursive call) and `$unset` maps the dotted paths of the
*current level's* deleted keys to `""` (modelled as the list of those
paths in insertion order).  The recursive call's own `$unset` is part of
a return value the source never reads — only the child mutation
survives, which is why `splitFields` keeps just the first component. -/
def getSetAndUnset (v : JVal) (currentPath : List String) : JVal × List String :=
  match v with
  | .obj fields => (.obj (splitFields fields currentPath), undefKeysDotted fields currentPath)
  | v => (v, [])

/-- One pass over the object's keys: drop `undefined` values (the inner
delete loop) and replace each recursable child by its mutated form (the
discarded-result recursive call). -/
def splitFields (fields : JObj) (currentPath : List String) : JObj :=
  match fields with
  | .nil => .nil
  | .cons k v rest =>
    if v = .undef then splitFields rest currentPath
    else
      .cons k
        (if isRecursableJS v then (getSetAndUnset v (currentPath ++ [k])).1 else v)
        (splitFields rest currentPath)

end

/-! Specification-side cleaner: the input with every `undefined`-valued
key removed, recursively through plain objects only (arrays and dates
are atomic). -/

mutual

def deepClean : JVal → JVal
  | .obj fields => .obj (deepCleanFields fields)
  | v => v

def deepCleanFields : JObj → JObj
  | .nil => .nil
  | .cons k v rest =>
    if v = .undef then deepCleanFields rest
    else .cons k (deepClean v) (deepCleanFields rest)

end

mutual

theorem getSetAndUnset_fst_eq_deepClean :
    ∀ (v : JVal) (cp : List String), (getSetAndUnset v cp).1 = deepClean v
  | .obj fields, cp => by
    simp [getSetAndUnset, deepClean, splitFields_eq_deepCleanFields fields cp]
  | .undef, _ => rfl
  | .jnull, _ => rfl
  | .prim _, _ => rfl
  | .date, _ => rfl
  | .arr _, _ => rfl

theorem splitFields_eq_deepCleanFields :
    ∀ (f : JObj) (cp : List String), splitFields f cp = deepCleanFields f
  | .nil, _ => rfl
  | .cons k v rest, cp => by
    by_cases hv : v = .undef
    · simp [splitFields, deepCleanFields, hv,
        splitFields_eq_deepCleanFields rest cp]
    · by_cases hr : isRecursableJS v = true
      · simp [splitFields, deepCleanFields, hv, hr,
          splitFields_eq_deepCleanFields rest cp,
          getSetAndUnset_fst_eq_deepClean v (cp ++ [k])]
      · have : deepClean v = v := by
          cases v <;> simp_all [isRecursableJS, deepClean]
        simp [splitFields, deepCleanFields, hv, hr,
          splitFields_eq_deepCleanFields rest cp, this]

end

theorem undefKeysDotted_eq_map :
    ∀ (f : JObj) (cp : List String),
      undefKeysDotted f cp = (undefKeys f).map (dotJoin cp)
  | .nil, _ => rfl
  | .cons k v rest, cp => by
    by_cases hv : v = .undef <;>
      simp [undefKeysDotted, undefKeys, hv, undefKeysDotted_eq_map rest cp]

theorem undefKeys_subset_keys :
    ∀ (f : JObj) (k : String), k ∈ undefKeys f → k ∈ f.keys
  | .cons k' v rest, k => by
    intro h
    by_cases hv : v = .undef
    · simp only [undefKeys, hv, if_pos, List.singleton_append,
        List.mem_cons] at h
      rcases h with rfl | h
      · simp [JObj.keys]
      · simp [JObj.keys, undefKeys_subset_keys rest k h]
    · simp only [undefKeys, hv, if_neg, List.nil_append] at h
      simp [JObj.keys, undefKeys_subset_keys rest k h]
  | .nil, k => by intro h; simp [undefKeys] at h

theorem splitFields_hasKey_imp :
    ∀ (f : JObj) (cp : List String) (k : String),
      (splitFields f cp).hasKey k = true → k ∈ f.keys
  | .nil, cp, k => by intro h; simp [splitFields, JObj.hasKey] at h
  | .cons k' v rest, cp, k => by
    intro h
    by_cases hv : v = .undef
    · simp only [splitFields, hv, if_pos rfl] at h
      simp only [JObj.keys, List.mem_cons]
      exact Or.inr (splitFields_hasKey_imp rest cp k h)
    · simp only [splitFields, if_neg hv] at h
      simp only [JObj.hasKey, Bool.or_eq_true, decide_eq_true_eq] at h
      rcases h with h | h
      · simp [JObj.keys, h]
      · simp [JObj.keys, splitFields_hasKey_imp rest cp k h]

theorem splitFields_not_hasKey_of_undef :
    ∀ (f : JObj) (cp : List String), f.keys.Nodup →
      ∀ k, k ∈ undefKeys f → (splitFields f cp).hasKey k = false
  | .nil, cp => by intro _ k hk; simp [undefKeys] at hk
  | .cons k' v rest, cp => by
    intro hnd k hk
    simp only [JObj.keys, List.nodup_cons] at hnd
    obtain ⟨hnotin, hndrest⟩ := hnd
    by_cases hv : v = .undef
    · simp only [undefKeys, hv, if_pos, List.singleton_append,
        List.mem_cons] at hk
      rcases hk with rfl | hk
      · simp only [splitFields, hv, if_pos]
        cases hb : (splitFields rest cp).hasKey k
        · rfl
        · exact absurd (splitFields_hasKey_imp rest cp k hb) hnotin
      · simpa [splitFields, hv] using
          splitFields_not_hasKey_of_undef rest cp hndrest k hk
    · simp only [undefKeys, hv, if_neg, List.nil_append] at hk
      have hne : ¬(k' = k) := fun he =>
        hnotin (he ▸ undefKeys_subset_keys rest k hk)
      simp [splitFields, hv, JObj.hasKey, hne,
        splitFields_not_hasKey_of_undef rest cp hndrest k hk]

/-- C2 counterexample: on the sparse object `{ a: { b: undefined } }` the
splitter returns `$set = { a: {} }` and `$unset = {}`: the nested
`undefined`-valued key `b` (dotted path `"a.b"`) is deleted from the set
output, but — contrary to the claim — it is *not* recorded as an unset
entry at its full dotted path: the recursive call that computed the
`"a.b"` entry is discarded, so the unset output is empty. -/
theorem getSetAndUnset_nested_unset_counterexample :
    getSetAndUnset (.obj (.cons "a" (.obj (.cons "b" .undef .nil)) .nil)) [] =
      (.obj (.cons "a" (.obj .nil) .nil), []) ∧
    "a.b" ∉ (getSetAndUnset
      (.obj (.cons "a" (.obj (.cons "b" .undef .nil)) .nil)) []).2 := by
  decide

/-- C2 (amended): for every sparse plain object, the splitter's set
output is the input with every `undefined`-valued key removed recursively
(descending through plain objects only; arrays and dates stay atomic),
and its unset output records exactly the *top-level* `undefined`-valued
keys at their dotted paths — nested `undefined` keys are dropped from the
set output without any unset entry, because the recursive call's unset
record is discarded.  No key appears in both outputs: a recorded unset
key is absent from the set output. -/
theorem getSetAndUnset_amended (v : JVal) (cp : List String) :
    (getSetAndUnset v cp =
      (deepClean v,
        match v with
        | .obj f => (undefKeys f).map (dotJoin cp)
        | _ => [])) ∧
    (∀ f : JObj, v = .obj f → f.keys.Nodup →
      ∀ k, k ∈ undefKeys f → (splitFields f cp).hasKey k = false) := by
  constructor
  · cases v with
    | obj fields =>
      simp [getSetAndUnset, getSetAndUnset_fst_eq_deepClean,
        undefKeysDotted_eq_map,
        splitFields_eq_deepCleanFields fields cp, deepClean]
    | undef => rfl
    | jnull => rfl
    | prim tag => rfl
    | date => rfl
    | arr elems => rfl
  · rintro f rfl hnd k hk
    exact splitFields_not_hasKey_of_undef f cp hnd k hk

/-- Witness for the amended C2 on `{ u: undefined, x: 1 }`: the set
output drops `u`, the unset output is exactly `["u"]`, and `u` is absent
from the set output. -/
theorem getSetAndUnset_amended_witness :
    getSetAndUnset (.obj (.cons "u" .undef (.cons "x" (.prim "1") .nil))) [] =
      (.obj (.cons "x" (.prim "1") .nil), ["u"]) ∧
    (splitFields (.cons "u" .undef (.cons "x" (.prim "1") .nil)) []).hasKey "u"
      = false := by
  have h := getSetAndUnset_amended
    (.obj (.cons "u" .undef (.cons "x" (.prim "1") .nil))) []
  exact ⟨h.1.trans (by decide), h.2 _ rfl (by decide) "u" (by decide)⟩

/-! ### `getVerifiedQuery` / `getSchemaAtPath` / `createIndex` path gating
(src/src/database.ts lines 1529-1554, 1570-1578, 1346-1358)

Query values are classified exactly by the test
`value === null || value instanceof Date || typeof value !== "object"`:
`null`s, `Date`s and scalars are parsed, everything else (a non-null,
non-`Date` object) is passed through.  The zod `parse` is the external
schema library, abstracted as a function argument.  The per-instance
`warningMessagesSent` record is threaded explicitly: the result of a call
is the (possibly failed) verified query *plus* the new flag and the number
of warning lines logged during the call — the flag mutation survives a
thrown error, as it does on the real instance. -/

inductive QVal : Type where
  | qnull : QVal
  | qdate (tag : String) : QVal
  | qscalar (tag : String) : QVal
  | qobj (tag : String) : QVal
  deriving DecidableEq

/-- `value === null || value instanceof Date || typeof value !== "object"`. -/
def isNonObjectQVal : QVal → Bool
  | .qobj _ => false
  | _ => true

/-- `getSchemaAtPath`: throws when the dotted path is absent from the
collection's flattened map. -/
def getSchemaAtPath (m : PathMap) (collection path : String) :
    Except String ZSchema :=
  match lookupPath m path with
  | none => .error ("Path \"" ++ path ++ "\" does not exist in collection \"" ++
      collection ++ "\"")
  | some s => .ok s

/-- `getVerifiedQuery`: `_id` entries are copied through before any
validation; other entries are resolved via `getSchemaAtPath` (unknown
path ⇒ throw), then parsed when scalar/`Date`/`null` and passed through
unvalidated when object-valued, warning once per instance.  Returns
`(verified-or-error, new warned flag, warnings logged)`. -/
def getVerifiedQuery (m : PathMap) (collection : String)
    (parse : ZSchema → QVal → Except String QVal)
    (query : List (String × QVal)) (warned : Bool) :
    Except String (List (String × QVal)) × Bool × Nat :=
  match query with
  | [] => (.ok [], warned, 0)
  | (path, value) :: rest =>
    if path = "_id" then
      let out := getVerifiedQuery m collection parse rest warned
      (out.1.map (fun l => (path, value) :: l), out.2)
    else
      match getSchemaAtPath m collection path with
      | .error e => (.error e, warned, 0)
      | .ok schema =>
        if isNonObjectQVal value then
          match parse schema value with
          | .error e => (.error e, warned, 0)
          | .ok parsed =>
            let out := getVerifiedQuery m collection parse rest warned
            (out.1.map (fun l => (path, parsed) :: l), out.2)
        else
          let logged := if warned then 0 else 1
          let out := getVerifiedQuery m collection parse rest true
          (out.1.map (fun l => (path, value) :: l), out.2.1, logged + out.2.2)

/-- A sequence of queries processed through one facade instance: the
`warningMessagesSent` flag is threaded from call to call; the total of
logged warnings is accumulated. -/
def runQueries (m : PathMap) (collection : String)
    (parse : ZSchema → QVal → Except String QVal) :
    List (List (String × QVal)) → Bool → Bool × Nat
  | [], w => (w, 0)
  | q :: qs, w =>
    let out := getVerifiedQuery m collection parse q w
    let rest := runQueries m collection parse qs out.2.1
    (rest.1, out.2.2 + rest.2)

/-- The `createIndex` key loop (lines 1351-1355): every index key must be
present in the flattened map — there is no `_id` special case here. -/
def checkIndexPaths (m : PathMap) (collection : String) :
    List String → Except String Unit
  | [] => .ok ()
  | key :: rest =>
    if (lookupPath m key).isSome then checkIndexPaths m collection rest
    else .error ("Invalid index path \"" ++ key ++ "\" in collection " ++ collection)

theorem exceptMap_isOk {α β : Type} (f : α → β) (r : Except String α) :
    (r.map f).isOk = r.isOk := by
  cases r <;> rfl

theorem getVerifiedQuery_warned_true (m : PathMap) (collection : String)
    (parse : ZSchema → QVal → Except String QVal) :
    ∀ q : List (String × QVal),
      (getVerifiedQuery m collection parse q true).2 = (true, 0) := by
  intro q
  induction q with
  | nil => rfl
  | cons hd rest ih =>
    obtain ⟨path, value⟩ := hd
    by_cases hid : path = "_id"
    · simp [getVerifiedQuery, hid, ih]
    · simp only [getVerifiedQuery, hid, if_neg]
      cases hs : getSchemaAtPath m collection path with
      | error e => simp
      | ok schema =>
        by_cases hnv : isNonObjectQVal value = true
        · simp only [hnv, if_pos]
          cases hp : parse schema value with
          | error e => simp
          | ok parsed => simp [ih]
        · simp only [hnv]
          simp [ih]

theorem getVerifiedQuery_warned_false (m : PathMap) (collection : String)
    (parse : ZSchema → QVal → Except String QVal) :
    ∀ q : List (String × QVal),
      (getVerifiedQuery m collection parse q false).2 = (false, 0) ∨
      (getVerifiedQuery m collection parse q false).2 = (true, 1) := by
  intro q
  induction q with
  | nil => left; rfl
  | cons hd rest ih =>
    obtain ⟨path, value⟩ := hd
    by_cases hid : path = "_id"
    · simpa [getVerifiedQuery, hid] using ih
    · simp only [getVerifiedQuery, hid, if_neg]
      cases hs : getSchemaAtPath m collection path with
      | error e => left; simp
      | ok schema =>
        by_cases hnv : isNonObjectQVal value = true
        · simp only [hnv, if_pos]
          cases hp : parse schema value with
          | error e => left; simp
          | ok parsed => simpa using ih
        · simp only [hnv]
          right
          simp [getVerifiedQuery_warned_true m collection parse rest]

theorem runQueries_warned_true (m : PathMap) (collection : String)
    (parse : ZSchema → QVal → Except String QVal) :
    ∀ qs : List (List (String × QVal)),
      runQueries m collection parse qs true = (true, 0) := by
  intro qs
  induction qs with
  | nil => rfl
  | cons q rest ih =>
    simp [runQueries, getVerifiedQuery_warned_true m collection parse q, ih]

/-- C8 counterexample: the warned-once flag is the per-instance field
`warningMessagesSent`, initialized fresh by every `ZongoDB` constructor.
A process holding two facade instances that each verify one object-valued
query entry logs the pass-through warning twice — not once per process. -/
theorem queryObjectWarning_per_instance_counterexample :
    (match getVerifiedQuery [("a", ZSchema.zString)] "col" (fun _ v => .ok v)
        [("a", QVal.qobj "gt")] false,
      getVerifiedQuery [("a", ZSchema.zString)] "col" (fun _ v => .ok v)
        [("a", QVal.qobj "gt")] false with
     | (.ok _, _, n1), (.ok _, _, n2) => n1 + n2
     | _, _ => 0) = 2 := by decide

/-- C8 (amended): in query verification a scalar, date or null value is
parsed against the governing schema at its path, while an object-valued
entry is passed through unvalidated; the pass-through warning is logged
at most once per facade *instance* (the `warningMessagesSent` record is
per-instance state, not process-global): across any sequence of queries
threaded through one instance, at most one warning is ever logged, the
first time an object-valued entry is passed through. -/
theorem getVerifiedQuery_object_passthrough :
    (∀ (m : PathMap) (collection : String)
        (parse : ZSchema → QVal → Except String QVal)
        (path : String) (v : QVal) (warned : Bool) (sch : ZSchema),
      path ≠ "_id" → lookupPath m path = some sch → isNonObjectQVal v = true →
      getVerifiedQuery m collection parse [(path, v)] warned =
        ((parse sch v).map (fun p => [(path, p)]), warned, 0)) ∧
    (∀ (m : PathMap) (collection : String)
        (parse : ZSchema → QVal → Except String QVal)
        (path : String) (v : QVal) (warned : Bool) (sch : ZSchema),
      path ≠ "_id" → lookupPath m path = some sch → isNonObjectQVal v = false →
      getVerifiedQuery m collection parse [(path, v)] warned =
        (.ok [(path, v)], true, if warned then 0 else 1)) ∧
    (∀ (m : PathMap) (collection : String)
        (parse : ZSchema → QVal → Except String QVal)
        (qs : List (List (String × QVal))),
      (runQueries m collection parse qs false).2 ≤ 1) := by
  refine ⟨?_, ?_, ?_⟩
  · intro m collection parse path v warned sch hid hl hnv
    simp only [getVerifiedQuery, hid, if_neg, getSchemaAtPath, hl, hnv, if_pos]
    cases hp : parse sch v <;> simp [getVerifiedQuery, Except.map]
  · intro m collection parse path v warned sch hid hl hnv
    simp [getVerifiedQuery, hid, getSchemaAtPath, hl, hnv, Except.map]
  · intro m collection parse qs
    induction qs with
    | nil => simp [runQueries]
    | cons q rest ih =>
      rcases getVerifiedQuery_warned_false m collection parse q with h | h <;>
        simp [runQueries, h, ih, runQueries_warned_true m collection parse rest]

/-- Witness for the amended C8: a scalar entry is parsed, an
object-valued entry is passed through with one warning from a fresh
instance, and a two-query sequence on one instance logs only one
warning. -/
theorem getVerifiedQuery_object_passthrough_witness :
    getVerifiedQuery [("a", ZSchema.zString)] "col" (fun _ v => .ok v)
        [("a", QVal.qscalar "s")] false = (.ok [("a", QVal.qscalar "s")], false, 0) ∧
    getVerifiedQuery [("a", ZSchema.zString)] "col" (fun _ v => .ok v)
        [("a", QVal.qobj "gt")] false = (.ok [("a", QVal.qobj "gt")], true, 1) ∧
    (runQueries [("a", ZSchema.zString)] "col" (fun _ v => .ok v)
        [[("a", QVal.qobj "gt")], [("a", QVal.qobj "lt")]] false).2 ≤ 1 := by
  refine ⟨?_, ?_, ?_⟩
  · exact (getVerifiedQuery_object_passthrough.1 _ "col" _ "a" _ false
      ZSchema.zString (by decide) (by decide) (by decide)).trans rfl
  · exact (getVerifiedQuery_object_passthrough.2.1 _ "col" _ "a" _ false
      ZSchema.zString (by decide) (by decide) (by decide)).trans rfl
  · exact getVerifiedQuery_object_passthrough.2.2 _ "col" _ _

/-- C5 counterexample: `_id` does *not* bypass path validation for every
operation: `createIndex` checks every index key against the flattened map
with no `_id` special case, and `_id` is never a key of that map (the
constructor rejects schemas declaring it), so creating an index on `_id`
throws an invalid-path error; likewise `getSchemaAtPath` — the gate used
for update and transform set/unset paths — rejects `_id`. -/
theorem pathGating_id_counterexample :
    (checkIndexPaths [("a", ZSchema.zString)] "col" ["_id"]).isOk = false ∧
    (getSchemaAtPath [("a", ZSchema.zString)] "col" "_id").isOk = false := by
  decide

theorem getVerifiedQuery_isOk_false_of_unknown (m : PathMap)
    (collection : String) (parse : ZSchema → QVal → Except String QVal)
    (path : String) (v : QVal) :
    ∀ (q : List (String × QVal)) (warned : Bool), (path, v) ∈ q →
      path ≠ "_id" → lookupPath m path = none →
      (getVerifiedQuery m collection parse q warned).1.isOk = false := by
  intro q
  induction q with
  | nil => intro _ h; simp at h
  | cons hd rest ih =>
    intro warned hmem hid hlk
    obtain ⟨path', v'⟩ := hd
    rcases List.mem_cons.mp hmem with heq | hmem'
    · cases heq
      simp [getVerifiedQuery, hid, getSchemaAtPath, hlk, Except.isOk,
        Except.toBool]
    · by_cases hid' : path' = "_id"
      · simp only [getVerifiedQuery, hid', if_pos]
        show ((getVerifiedQuery m collection parse rest warned).1.map
          (fun l => ("_id", v') :: l)).isOk = false
        rw [exceptMap_isOk]
        exact ih warned hmem' hid hlk
      · simp only [getVerifiedQuery, hid', if_neg]
        cases hs : getSchemaAtPath m collection path' with
        | error e => rfl
        | ok schema =>
          by_cases hnv : isNonObjectQVal v' = true
          · simp only [hnv, if_pos]
            cases hp : parse schema v' with
            | error e => rfl
            | ok parsed =>
              show ((getVerifiedQuery m collection parse rest warned).1.map
                (fun l => (path', parsed) :: l)).isOk = false
              rw [exceptMap_isOk]
              exact ih warned hmem' hid hlk
          · simp only [hnv]
            show ((getVerifiedQuery m collection parse rest true).1.map
              (fun l => (path', v') :: l)).isOk = false
            rw [exceptMap_isOk]
            exact ih true hmem' hid hlk

/-- C5 (amended): for every collection and every dotted path not present
in the flattened path map, a query entry on that path makes
`getVerifiedQuery` throw, an update/transform set-unset path makes
`getSchemaAtPath` throw, and an index key makes the `createIndex` key
loop throw — in each case the `Except` error is produced by the embedded
verification stage, before the storage call these functions guard.  The
`_id` bypass exists only in `getVerifiedQuery` (query keys): an `_id`
query entry is always copied through unvalidated, while update paths and
index keys enjoy no `_id` exception (conjuncts two and three apply to
`"_id"` like any other absent path). -/
theorem unknownPath_gating :
    (∀ (m : PathMap) (collection : String)
        (parse : ZSchema → QVal → Except String QVal)
        (q : List (String × QVal)) (warned : Bool) (path : String) (v : QVal),
      (path, v) ∈ q → path ≠ "_id" → lookupPath m path = none →
      (getVerifiedQuery m collection parse q warned).1.isOk = false) ∧
    (∀ (m : PathMap) (collection path : String),
      lookupPath m path = none →
      (getSchemaAtPath m collection path).isOk = false) ∧
    (∀ (m : PathMap) (collection : String) (keys : List String) (key : String),
      key ∈ keys → lookupPath m key = none →
      (checkIndexPaths m collection keys).isOk = false) ∧
    (∀ (m : PathMap) (collection : String)
        (parse : ZSchema → QVal → Except String QVal) (v : QVal) (warned : Bool),
      getVerifiedQuery m collection parse [("_id", v)] warned =
        (.ok [("_id", v)], warned, 0)) := by
  refine ⟨?_, ?_, ?_, ?_⟩
  · intro m collection parse q warned path v hmem hid hlk
    exact getVerifiedQuery_isOk_false_of_unknown m collection parse path v q
      warned hmem hid hlk
  · intro m collection path hlk
    simp [getSchemaAtPath, hlk, Except.isOk, Except.toBool]
  · intro m collection keys key hmem hlk
    induction keys with
    | nil => simp at hmem
    | cons hd rest ih =>
      rcases List.mem_cons.mp hmem with rfl | hmem'
      · simp [checkIndexPaths, hlk, Except.isOk, Except.toBool]
      · by_cases hh : (lookupPath m hd).isSome = true
        · simpa [checkIndexPaths, hh] using ih hmem'
        · simp [checkIndexPaths, hh, Except.isOk, Except.toBool]
  · intro m collection parse v warned
    simp [getVerifiedQuery, Except.map]

/-- Witness for the amended C5: on the map `[("a", string)]`, the unknown
path `"b"` is rejected by query verification, by the update-path gate and
by the index-key loop, while an `_id` query entry passes untouched. -/
theorem unknownPath_gating_witness :
    (getVerifiedQuery [("a", ZSchema.zString)] "col" (fun _ v => .ok v)
        [("b", QVal.qscalar "s")] false).1.isOk = false ∧
    (getSchemaAtPath [("a", ZSchema.zString)] "col" "b").isOk = false ∧
    (checkIndexPaths [("a", ZSchema.zString)] "col" ["b"]).isOk = false ∧
    getVerifiedQuery [("a", ZSchema.zString)] "col" (fun _ v => .ok v)
        [("_id", QVal.qscalar "7")] false =
      (.ok [("_id", QVal.qscalar "7")], false, 0) :=
  ⟨unknownPath_gating.1 _ "col" _ _ false "b" (QVal.qscalar "s")
      (by decide) (by decide) (by decide),
   unknownPath_gating.2.1 _ "col" "b" (by decide),
   unknownPath_gating.2.2.1 _ "col" ["b"] "b" (by decide) (by decide),
   unknownPath_gating.2.2.2 _ "col" _ (QVal.qscalar "7") false⟩

/-! ### `update` and `addPathParentsToQuery`
(src/src/database.ts lines 1210-1240 and 1509-1521)

`getVerifiedQuery` copies object-valued query entries *by reference* into
the verified query, and `addPathParentsToQuery` then mutates the objects
held by the caller's query, so the aliasing matters.  We model it with an
explicit heap: a query value is a primitive or a reference into the heap.
`query[part] = {}` allocates a fresh object (visible only through the
caller's query); `query[part].$exists = true` on a reference mutates the
shared heap object; on a primitive it throws (`update` is a class method,
hence strict mode).  The storage driver serializes the filter when the
`updateOne`/`updateMany` call is issued — after the loop — so the issued
filter is the verified query rendered against the final heap.  The
`$set`/`$unset` document built from the parsed update is the subject of
the splitter model above and does not influence the filter. -/

inductive HVal : Type where
  | hprim (n : Nat) : HVal
  | href (r : Nat) : HVal
  deriving DecidableEq

abbrev HObj := List (String × HVal)
abbrev Heap := List (Nat × HObj)

def heapLookup (h : Heap) (r : Nat) : Option HObj :=
  match h with
  | [] => none
  | (r', o) :: rest => if r' = r then some o else heapLookup rest r

def heapSet (h : Heap) (r : Nat) (o : HObj) : Heap :=
  match h with
  | [] => [(r, o)]
  | (r', o') :: rest => if r' = r then (r', o) :: rest else (r', o') :: heapSet rest r o

def lookupQ (q : List (String × HVal)) (k : String) : Option HVal :=
  match q with
  | [] => none
  | (k', v) :: rest => if k' = k then some v else lookupQ rest k

def qSet (q : List (String × HVal)) (k : String) (v : HVal) : List (String × HVal) :=
  match q with
  | [] => [(k, v)]
  | (k', v') :: rest => if k' = k then (k', v) :: rest else (k', v') :: qSet rest k v

/-- JS property write on a heap object. -/
def objSet (o : HObj) (k : String) (v : HVal) : HObj :=
  match o with
  | [] => [(k, v)]
  | (k', v') :: rest => if k' = k then (k', v) :: rest else (k', v') :: objSet rest k v

/-- `getVerifiedQuery` over heap values: `_id` passes through; primitives
(`typeof value !== "object"`) are parsed; references (object values) are
copied through *as the same reference*, with the warned-once flag set. -/
def getVerifiedQueryH (m : PathMap) (collection : String)
    (parseH : ZSchema → Nat → Except String Nat)
    (q : List (String × HVal)) (warned : Bool) :
    Except String (List (String × HVal)) × Bool :=
  match q with
  | [] => (.ok [], warned)
  | (path, value) :: rest =>
    if path = "_id" then
      let out := getVerifiedQueryH m collection parseH rest warned
      (out.1.map (fun l => (path, value) :: l), out.2)
    else
      match getSchemaAtPath m collection path with
      | .error e => (.error e, warned)
      | .ok schema =>
        match value with
        | .hprim n =>
          match parseH schema n with
          | .error e => (.error e, warned)
          | .ok n' =>
            let out := getVerifiedQueryH m collection parseH rest warned
            (out.1.map (fun l => (path, HVal.hprim n') :: l), out.2)
        | .href r =>
          let out := getVerifiedQueryH m collection parseH rest true
          (out.1.map (fun l => (path, HVal.href r) :: l), out.2)

/-- JS `path.split(".")`: split on every dot, keeping empty segments. -/
def splitDotAux : List Char → List Char → List String
  | [], acc => [String.mk acc.reverse]
  | c :: rest, acc =>
    if c = '.' then String.mk acc.reverse :: splitDotAux rest []
    else splitDotAux rest (c :: acc)

def splitDot (s : String) : List String :=
  splitDotAux s.toList []

/-- The proper dotted prefixes visited by `addPathParentsToQuery`:
`parts.slice(0, i).join(".")` for `i = 1 .. parts.length - 1`. -/
def parentPaths (path : String) : List String :=
  let parts := splitDot path
  (List.range (parts.length - 1)).map
    (fun i => String.intercalate "." (parts.take (i + 1)))

structure UpdState where
  query : List (String × HVal)
  heap : Heap
  next : Nat
  deriving DecidableEq

/-- One iteration of the `addPathParentsToQuery` loop on one parent
`part`: `if (query[part] === undefined) query[part] = {}; query[part].$exists
= true`.  A fresh `{}` is allocated at the next reference; a shared object
reference is mutated in the heap; a primitive raises the strict-mode
`TypeError` that property creation on a primitive produces. -/
def addParentStep (st : UpdState) (part : String) : Except String UpdState :=
  match lookupQ st.query part with
  | none =>
    .ok ⟨qSet st.query part (.href st.next),
         heapSet st.heap st.next [("$exists", .hprim 1)],
         st.next + 1⟩
  | some (.href r) =>
    match heapLookup st.heap r with
    | some o => .ok ⟨st.query, heapSet st.heap r (objSet o "$exists" (.hprim 1)), st.next⟩
    | none => .error "TypeError: Cannot set properties of undefined"
  | some (.hprim _) =>
    .error "TypeError: Cannot create property on a primitive value"

def addPathParentsGo : List String → UpdState → Except String UpdState
  | [], st => .ok st
  | part :: rest, st => do
    let st' ← addParentStep st part
    addPathParentsGo rest st'

/-- `addPathParentsToQuery(path, query)`. -/
def addPathParentsToQuery (path : String) (st : UpdState) : Except String UpdState :=
  addPathParentsGo (parentPaths path) st

/-- The non-upsert `for (const path in update)` loop of `update`: parse
the value at the path's governing schema, then add the parent `$exists`
conditions to the caller's query. -/
def updateLoop (m : PathMap) (coll : String)
    (parseVal : ZSchema → Nat → Except String Nat) :
    List (String × Nat) → UpdState → Except String UpdState
  | [], st => .ok st
  | (path, val) :: rest, st => do
    let schema ← getSchemaAtPath m coll path
    let _ ← parseVal schema val
    let st' ← addPathParentsToQuery path st
    updateLoop m coll parseVal rest st'

/-- A filter value as serialized by the driver at call time: primitives
verbatim, object references dereferenced against the heap. -/
inductive RVal : Type where
  | rprim (n : Nat) : RVal
  | robj (fields : HObj) : RVal
  deriving DecidableEq

def renderVal (heap : Heap) : HVal → RVal
  | .hprim n => .rprim n
  | .href r => .robj ((heapLookup heap r).getD [])

def renderQuery (heap : Heap) (q : List (String × HVal)) : List (String × RVal) :=
  q.map (fun e => (e.1, renderVal heap e.2))

/-- The non-upsert `update` path: compute the verified query first, run
the per-path parse + parent loop (which mutates the caller's query and
the heap), then issue the storage call whose filter is the verified query
serialized against the post-loop heap. -/
def updateModel (m : PathMap) (coll : String)
    (parseH parseVal : ZSchema → Nat → Except String Nat)
    (query : List (String × HVal)) (heap : Heap) (next : Nat)
    (updates : List (String × Nat)) :
    Except String (List (String × RVal) × UpdState) := do
  let vq ← (getVerifiedQueryH m coll parseH query false).1
  let st' ← updateLoop m coll parseVal updates ⟨query, heap, next⟩
  return (renderQuery st'.heap vq, st')


/-- C9 counterexample: with caller query `{ a: <object> }` and update path
`"a.b"`, the verified query shares the caller's object by reference;
`addPathParentsToQuery` writes `$exists: true` into that shared object,
and the filter issued to storage — the verified query serialized at call
time — *does* contain the parent `$exists` condition, contrary to the
claim that those conditions never appear in the issued filter. -/
theorem update_parentExists_filter_counterexample :
    updateModel [("a", ZSchema.zObject .nil), ("a.b", ZSchema.zNumber)] "col"
        (fun _ n => .ok n) (fun _ n => .ok n)
        [("a", .href 0)] [(0, [("v", .hprim 5)])] 1 [("a.b", 7)] =
      .ok ([("a", .robj [("v", .hprim 5), ("$exists", .hprim 1)])],
           ⟨[("a", .href 0)], [(0, [("v", .hprim 5), ("$exists", .hprim 1)])], 1⟩) ∧
    renderQuery [(0, [("v", .hprim 5)])] [("a", .href 0)] ≠
      [("a", .robj [("v", .hprim 5), ("$exists", .hprim 1)])] := by
  exact ⟨rfl, by decide⟩

theorem heapLookup_set_ne (h : Heap) (r r' : Nat) (o : HObj) (hne : r ≠ r') :
    heapLookup (heapSet h r o) r' = heapLookup h r' := by
  induction h with
  | nil => simp [heapSet, heapLookup, hne]
  | cons hd rest ih =>
    obtain ⟨r0, o0⟩ := hd
    by_cases h0 : r0 = r
    · subst h0
      simp [heapSet, heapLookup, hne]
    · simp [heapSet, heapLookup, h0, ih]

theorem lookupQ_set_ne (q : List (String × HVal)) (k k' : String) (v : HVal)
    (hne : k ≠ k') : lookupQ (qSet q k v) k' = lookupQ q k' := by
  induction q with
  | nil => simp [qSet, lookupQ, hne]
  | cons hd rest ih =>
    obtain ⟨k0, v0⟩ := hd
    by_cases h0 : k0 = k
    · subst h0
      simp [qSet, lookupQ, hne]
    · simp [qSet, lookupQ, h0, ih]

theorem lookupQ_set_eq (q : List (String × HVal)) (k : String) (v : HVal) :
    lookupQ (qSet q k v) k = some v := by
  induction q with
  | nil => simp [qSet, lookupQ]
  | cons hd rest ih =>
    obtain ⟨k0, v0⟩ := hd
    by_cases h0 : k0 = k
    · subst h0
      simp [qSet, lookupQ]
    · simp [qSet, lookupQ, h0, ih]

/-- Invariant threading the parent loop: the allocation counter never
drops below the original `next`, the heap is untouched below the original
`next`, and every query key either keeps its original binding or was
freshly bound to a reference at or above the original `next`. -/
def updFrameInv (q0 : List (String × HVal)) (h0 : Heap) (n : Nat)
    (st : UpdState) : Prop :=
  n ≤ st.next ∧
  (∀ r, r < n → heapLookup st.heap r = heapLookup h0 r) ∧
  (∀ k, lookupQ st.query k = lookupQ q0 k ∨
    ∃ r, n ≤ r ∧ lookupQ st.query k = some (.href r))

theorem addParentStep_inv {q0 : List (String × HVal)} {h0 : Heap} {n : Nat}
    {st st' : UpdState} {part : String}
    (hinv : updFrameInv q0 h0 n st) (habs : lookupQ q0 part = none)
    (hok : addParentStep st part = .ok st') : updFrameInv q0 h0 n st' := by
  obtain ⟨hn, hheap, hquery⟩ := hinv
  unfold addParentStep at hok
  cases hq : lookupQ st.query part with
  | none =>
    rw [hq] at hok
    injection hok with hok
    subst hok
    refine ⟨?_, ?_, ?_⟩
    · show n ≤ st.next + 1
      omega
    · intro r hr
      show heapLookup (heapSet st.heap st.next [("$exists", .hprim 1)]) r =
        heapLookup h0 r
      rw [heapLookup_set_ne _ _ _ _ (by omega)]
      exact hheap r hr
    · intro k
      show lookupQ (qSet st.query part (.href st.next)) k = lookupQ q0 k ∨
        ∃ r, n ≤ r ∧ lookupQ (qSet st.query part (.href st.next)) k =
          some (.href r)
      by_cases hk : part = k
      · subst hk
        right
        exact ⟨st.next, hn, lookupQ_set_eq _ _ _⟩
      · rw [lookupQ_set_ne _ _ _ _ hk]
        exact hquery k
  | some v =>
    rw [hq] at hok
    cases v with
    | hprim m => exact absurd hok (by simp)
    | href r =>
      dsimp only at hok
      cases hh : heapLookup st.heap r with
      | none => rw [hh] at hok; exact absurd hok (by simp)
      | some o =>
        rw [hh] at hok
        injection hok with hok
        subst hok
        have hr : n ≤ r := by
          rcases hquery part with heq | ⟨r', hr', heq⟩
          · rw [habs] at heq
            rw [heq] at hq
            exact absurd hq (by simp)
          · rw [heq] at hq
            injection hq with hq2
            injection hq2 with hq3
            omega
        refine ⟨hn, ?_, hquery⟩
        intro r' hr'
        show heapLookup (heapSet st.heap r (objSet o "$exists" (.hprim 1))) r' =
          heapLookup h0 r'
        rw [heapLookup_set_ne _ _ _ _ (by omega)]
        exact hheap r' hr'

theorem exceptBind_ok {α β : Type} (a : α) (f : α → Except String β) :
    ((Except.ok a : Except String α) >>= f) = f a := rfl

theorem exceptBind_error {α β : Type} (e : String) (f : α → Except String β) :
    ((Except.error e : Except String α) >>= f) = .error e := rfl

theorem addPathParentsGo_inv {q0 : List (String × HVal)} {h0 : Heap} {n : Nat} :
    ∀ (parts : List String) {st st' : UpdState},
      updFrameInv q0 h0 n st → (∀ p ∈ parts, lookupQ q0 p = none) →
      addPathParentsGo parts st = .ok st' → updFrameInv q0 h0 n st' := by
  intro parts
  induction parts with
  | nil =>
    intro st st' hinv _ hok
    injection hok with hok
    subst hok
    exact hinv
  | cons p rest ih =>
    intro st st' hinv habs hok
    simp only [addPathParentsGo] at hok
    cases hstep : addParentStep st p with
    | error e => rw [hstep, exceptBind_error] at hok; exact absurd hok (by simp)
    | ok st1 =>
      rw [hstep, exceptBind_ok] at hok
      exact ih (addParentStep_inv hinv (habs p (by simp)) hstep)
        (fun p' hp' => habs p' (by simp [hp'])) hok

theorem updateLoop_inv {m : PathMap} {coll : String}
    {parseVal : ZSchema → Nat → Except String Nat}
    {q0 : List (String × HVal)} {h0 : Heap} {n : Nat} :
    ∀ (updates : List (String × Nat)) {st st' : UpdState},
      updFrameInv q0 h0 n st →
      (∀ p v, (p, v) ∈ updates → ∀ part ∈ parentPaths p, lookupQ q0 part = none) →
      updateLoop m coll parseVal updates st = .ok st' → updFrameInv q0 h0 n st' := by
  intro updates
  induction updates with
  | nil =>
    intro st st' hinv _ hok
    injection hok with hok
    subst hok
    exact hinv
  | cons hd rest ih =>
    intro st st' hinv habs hok
    obtain ⟨path, val⟩ := hd
    simp only [updateLoop] at hok
    cases hs : getSchemaAtPath m coll path with
    | error e => rw [hs, exceptBind_error] at hok; exact absurd hok (by simp)
    | ok schema =>
      rw [hs, exceptBind_ok] at hok
      cases hp : parseVal schema val with
      | error e => rw [hp, exceptBind_error] at hok; exact absurd hok (by simp)
      | ok val' =>
        rw [hp, exceptBind_ok] at hok
        cases hpar : addPathParentsToQuery path st with
        | error e => rw [hpar, exceptBind_error] at hok; exact absurd hok (by simp)
        | ok st1 =>
          rw [hpar, exceptBind_ok] at hok
          have hinv1 := addPathParentsGo_inv (parentPaths path) hinv
            (fun p' hp' => habs path val (by simp) p' hp') hpar
          exact ih hinv1
            (fun p v hv part hpart => habs p v (by simp [hv]) part hpart) hok

theorem getVerifiedQueryH_href_mem (m : PathMap) (coll : String)
    (parseH : ZSchema → Nat → Except String Nat) :
    ∀ (q : List (String × HVal)) (w : Bool) (vq : List (String × HVal)),
      (getVerifiedQueryH m coll parseH q w).1 = .ok vq →
      ∀ k r, (k, HVal.href r) ∈ vq → (k, HVal.href r) ∈ q := by
  intro q
  induction q with
  | nil =>
    intro w vq hok k r hmem
    injection hok with hok
    subst hok
    simp at hmem
  | cons hd rest ih =>
    intro w vq hok k r hmem
    obtain ⟨path, value⟩ := hd
    by_cases hid : path = "_id"
    · simp only [getVerifiedQueryH, hid, if_pos] at hok
      cases hrest : (getVerifiedQueryH m coll parseH rest w).1 with
      | error e => rw [hrest] at hok; exact absurd hok (by simp [Except.map])
      | ok l =>
        rw [hrest] at hok
        simp only [Except.map] at hok
        injection hok with hok
        subst hok
        rcases List.mem_cons.mp hmem with heq | hmem'
        · subst hid; rw [heq]; exact List.mem_cons_self _ _
        · exact List.mem_cons_of_mem _ (ih w l hrest k r hmem')
    · simp only [getVerifiedQueryH, hid, if_neg] at hok
      cases hs : getSchemaAtPath m coll path with
      | error e => rw [hs] at hok; exact absurd hok (by simp)
      | ok schema =>
        rw [hs] at hok
        cases value with
        | hprim nv =>
          dsimp only at hok
          cases hp : parseH schema nv with
          | error e => rw [hp] at hok; exact absurd hok (by simp)
          | ok nv' =>
            rw [hp] at hok
            cases hrest : (getVerifiedQueryH m coll parseH rest w).1 with
            | error e => rw [hrest] at hok; exact absurd hok (by simp [Except.map])
            | ok l =>
              rw [hrest] at hok
              simp only [Except.map] at hok
              injection hok with hok
              subst hok
              rcases List.mem_cons.mp hmem with heq | hmem'
              · exact absurd heq (by simp)
              · exact List.mem_cons_of_mem _ (ih w l hrest k r hmem')
        | href rr =>
          dsimp only at hok
          cases hrest : (getVerifiedQueryH m coll parseH rest true).1 with
          | error e => rw [hrest] at hok; exact absurd hok (by simp [Except.map])
          | ok l =>
            rw [hrest] at hok
            simp only [Except.map] at hok
            injection hok with hok
            subst hok
            rcases List.mem_cons.mp hmem with heq | hmem'
            · injection heq with h1 h2
              subst h1
              rw [h2]
              exact List.mem_cons_self _ _
            · exact List.mem_cons_of_mem _ (ih true l hrest k r hmem')

/-- C9 (amended): `addPathParentsToQuery` writes a parent `$exists`
condition for each update path's parent into the caller-supplied query —
allocating a fresh `{ $exists: true }` object when the parent key is
absent, and mutating the caller's own object in place when the parent key
is bound to an object.  The filter issued to storage is the verified
query serialized after that loop: when no update path's parent is a key
of the caller's query, the issued filter equals the verified query
rendered against the pre-loop heap — no `$exists` condition appears in
it; but when a parent key is already bound to an object, the verified
query shares that object by reference and the written `$exists` condition
does appear in the issued filter (see the counterexample). -/
theorem update_parentExists_frame :
    (∀ (st : UpdState) (part : String), lookupQ st.query part = none →
      addParentStep st part = .ok ⟨qSet st.query part (.href st.next),
        heapSet st.heap st.next [("$exists", .hprim 1)], st.next + 1⟩) ∧
    (∀ (st : UpdState) (part : String) (r : Nat) (o : HObj),
      lookupQ st.query part = some (.href r) → heapLookup st.heap r = some o →
      addParentStep st part = .ok ⟨st.query,
        heapSet st.heap r (objSet o "$exists" (.hprim 1)), st.next⟩) ∧
    (∀ (m : PathMap) (coll : String)
        (parseH parseVal : ZSchema → Nat → Except String Nat)
        (query : List (String × HVal)) (heap : Heap) (next : Nat)
        (updates : List (String × Nat)) (filter : List (String × RVal))
        (st' : UpdState),
      (∀ k r, (k, HVal.href r) ∈ query → r < next) →
      (∀ p v, (p, v) ∈ updates → ∀ part ∈ parentPaths p,
        lookupQ query part = none) →
      updateModel m coll parseH parseVal query heap next updates =
        .ok (filter, st') →
      ∃ vq, (getVerifiedQueryH m coll parseH query false).1 = .ok vq ∧
        filter = renderQuery heap vq) := by
  refine ⟨?_, ?_, ?_⟩
  · intro st part h
    simp [addParentStep, h]
  · intro st part r o h hh
    simp [addParentStep, h, hh]
  · intro m coll parseH parseVal query heap next updates filter st' h1 h2 hok
    unfold updateModel at hok
    cases hvq : (getVerifiedQueryH m coll parseH query false).1 with
    | error e => rw [hvq, exceptBind_error] at hok; exact absurd hok (by simp)
    | ok vq =>
      rw [hvq, exceptBind_ok] at hok
      cases hloop : updateLoop m coll parseVal updates ⟨query, heap, next⟩ with
      | error e => rw [hloop, exceptBind_error] at hok; exact absurd hok (by simp)
      | ok st1 =>
        rw [hloop, exceptBind_ok] at hok
        have hpair : (renderQuery st1.heap vq, st1) = (filter, st') := by
          injection hok with hok
        obtain ⟨hf, _⟩ := Prod.mk.injEq .. ▸ hpair
        have hinv0 : updFrameInv query heap next ⟨query, heap, next⟩ :=
          ⟨Nat.le_refl _, fun _ _ => rfl, fun _ => Or.inl rfl⟩
        have hinv := updateLoop_inv updates hinv0 h2 hloop
        refine ⟨vq, rfl, ?_⟩
        rw [← hf]
        unfold renderQuery
        refine List.map_congr_left ?_
        intro e he
        obtain ⟨k, v⟩ := e
        cases v with
        | hprim n0 => rfl
        | href r =>
          have hmem := getVerifiedQueryH_href_mem m coll parseH query false vq
            hvq k r he
          have hlt := h1 k r hmem
          have hagree := hinv.2.1 r hlt
          simp [renderVal, hagree]

/-- Witness for the amended C9: absent parent keys get a fresh
`{ $exists: true }` object in the caller's query only; a parent key bound
to a shared object gets `$exists` written into that object; and an update
whose parent keys are absent from the query issues a filter identical to
the verified query rendered against the untouched heap. -/
theorem update_parentExists_frame_witness :
    addParentStep ⟨[], [], 0⟩ "a" =
      .ok ⟨[("a", .href 0)], [(0, [("$exists", .hprim 1)])], 1⟩ ∧
    addParentStep ⟨[("a", .href 0)], [(0, [])], 5⟩ "a" =
      .ok ⟨[("a", .href 0)], [(0, [("$exists", .hprim 1)])], 5⟩ ∧
    ∃ vq, (getVerifiedQueryH [("q", ZSchema.zNumber), ("a.b", ZSchema.zNumber)]
        "col" (fun _ n => .ok n) [("q", .hprim 3)] false).1 = .ok vq ∧
      [("q", RVal.rprim 3)] = renderQuery [] vq := by
  refine ⟨?_, ?_, ?_⟩
  · exact (update_parentExists_frame.1 ⟨[], [], 0⟩ "a" (by decide)).trans rfl
  · exact (update_parentExists_frame.2.1 ⟨[("a", .href 0)], [(0, [])], 5⟩ "a" 0 []
      (by decide) (by decide)).trans rfl
  · exact update_parentExists_frame.2.2
      [("q", ZSchema.zNumber), ("a.b", ZSchema.zNumber)] "col"
      (fun _ n => .ok n) (fun _ n => .ok n)
      [("q", .hprim 3)] [] 0 [("a.b", 7)]
      [("q", RVal.rprim 3)]
      ⟨[("q", .hprim 3), ("a", .href 0)], [(0, [("$exists", .hprim 1)])], 1⟩
      (by intro k r h; simp at h)
      (by
        intro p v h part hpart
        simp only [List.mem_singleton] at h
        injection h with hp hv
        subst hp
        have hpp : parentPaths "a.b" = ["a"] := by decide
        rw [hpp] at hpart
        simp only [List.mem_singleton] at hpart
        subst hpart
        decide)
      rfl

/-! ### JavaScript `String.prototype.includes`

`transformMany` classifies caught errors by substring tests on their
`message`; we implement the substring test structurally so it computes in
the kernel. -/

def charsPrefix : List Char → List Char → Bool
  | [], _ => true
  | _ :: _, [] => false
  | c :: cs, d :: ds => c = d && charsPrefix cs ds

def charsContains (needle : List Char) : List Char → Bool
  | [] => charsPrefix needle []
  | c :: cs => charsPrefix needle (c :: cs) || charsContains needle cs

/-- `hay.includes(needle)`. -/
def strIncludes (hay needle : String) : Bool :=
  charsContains needle.data hay.data

theorem charsPrefix_subset :
    ∀ (needle l : List Char), charsPrefix needle l = true →
      ∀ c ∈ needle, c ∈ l := by
  intro needle
  induction needle with
  | nil => intro l _ c hc; simp at hc
  | cons n ns ih =>
    intro l hp c hc
    cases l with
    | nil => simp [charsPrefix] at hp
    | cons d ds =>
      simp only [charsPrefix, Bool.and_eq_true, decide_eq_true_eq] at hp
      rcases List.mem_cons.mp hc with rfl | hc'
      · simp [hp.1]
      · exact List.mem_cons_of_mem _ (ih ds hp.2 c hc')

theorem charsContains_subset :
    ∀ (hay needle : List Char), charsContains needle hay = true →
      ∀ c ∈ needle, c ∈ hay := by
  intro hay
  induction hay with
  | nil =>
    intro needle h c hc
    cases needle with
    | nil => simp at hc
    | cons n ns => simp [charsContains, charsPrefix] at h
  | cons d ds ih =>
    intro needle h c hc
    simp only [charsContains, Bool.or_eq_true] at h
    rcases h with h | h
    · exact charsPrefix_subset needle _ h c hc
    · exact List.mem_cons_of_mem _ (ih needle h c hc)

theorem charsPrefix_refl : ∀ l : List Char, charsPrefix l l = true := by
  intro l
  induction l with
  | nil => rfl
  | cons c cs ih => simp [charsPrefix, ih]

theorem charsContains_append_left (needle : List Char) :
    ∀ (l₁ l₂ : List Char), charsContains needle l₂ = true →
      charsContains needle (l₁ ++ l₂) = true := by
  intro l₁
  induction l₁ with
  | nil => intro l₂ h; simpa using h
  | cons c cs ih =>
    intro l₂ h
    simp only [List.cons_append, charsContains, Bool.or_eq_true]
    exact Or.inr (ih l₂ h)

theorem charsContains_self : ∀ l : List Char, charsContains l l = true := by
  intro l
  cases l with
  | nil => rfl
  | cons c cs => simp [charsContains, charsPrefix_refl]

/-! ### Decimal digits of `Nat.repr`

The retry-exhaustion message interpolates `maxRetries`; to classify that
message for *every* retry bound we need that a decimal numeral consists
of digit characters only. -/

theorem digitChar_mem_digits (k : Nat) (hk : k < 10) :
    Nat.digitChar k ∈ "0123456789".data := by
  interval_cases k <;> decide

theorem toDigitsCore_digits :
    ∀ (fuel n : Nat) (ds : List Char),
      (∀ c ∈ ds, c ∈ "0123456789".data) →
      ∀ c ∈ Nat.toDigitsCore 10 fuel n ds, c ∈ "0123456789".data := by
  intro fuel
  induction fuel with
  | zero => intro n ds hds c hc; exact hds c hc
  | succ fuel ih =>
    intro n ds hds c hc
    simp only [Nat.toDigitsCore] at hc
    have hd : Nat.digitChar (n % 10) ∈ "0123456789".data :=
      digitChar_mem_digits _ (Nat.mod_lt _ (by norm_num))
    by_cases hz : n / 10 = 0
    · rw [if_pos hz] at hc
      rcases List.mem_cons.mp hc with rfl | hc'
      · exact hd
      · exact hds c hc'
    · rw [if_neg hz] at hc
      refine ih (n / 10) _ ?_ c hc
      intro c' hc'
      rcases List.mem_cons.mp hc' with rfl | hc''
      · exact hd
      · exact hds c' hc''

theorem natRepr_digits (n : Nat) :
    ∀ c ∈ (Nat.repr n).data, c ∈ "0123456789".data := by
  intro c hc
  have : c ∈ Nat.toDigits 10 n := hc
  exact toDigitsCore_digits (n + 1) n [] (by simp) c this

/-! ### `transform` (src/src/database.ts lines 1091-1156)

The optimistic-locking transform loop.  Documents are association lists
(field name to an opaque payload) including `_id`.  The storage layer and
the zod parse are external: an environment says, per attempt, what
`findOne` locates, whether parsing/validating throws, whether the
conditional `findOneAndUpdate` finds a matching document, and what
`lastErrorObject.updatedExisting` reports; `Math.random()` is an
environment-supplied rational in `[0, 1)`. -/

abbrev Doc := List (String × Nat)

structure TransformEnv where
  found : Nat → Option Doc
  parseFails : Nat → Option String
  writeHits : Nat → Bool
  updatedExisting : Nat → Bool
  rand : Nat → ℚ

structure UpdateRes where
  acknowledged : Bool
  matchedCount : Nat
  modifiedCount : Nat
  upsertedCount : Nat
  deriving DecidableEq

inductive TOutcome : Type where
  | noDoc : TOutcome
  | ok (res : UpdateRes) : TOutcome
  | thrown (msg : String) : TOutcome
  deriving DecidableEq

structure TTrace where
  filters : List Doc
  delays : List ℚ
  deriving DecidableEq

/-- The message of the `Error` thrown when retries are exhausted
(line 1155); the interpolation `${maxRetries}` is `Nat.repr`. -/
def concurrentModMsg (maxRetries : Nat) : String :=
  "Transform operation failed after " ++ Nat.repr maxRetries ++
    " retries due to concurrent modifications"

/-- `{ _id: document._id }` (the `opts?.nonAtomic` filter). -/
def docIdOnly (doc : Doc) : Doc :=
  doc.filter (fun e => e.1 = "_id")

/-- The `while (attempt <= maxRetries)` loop body, from the given
attempt: re-verify the query, re-locate (`findOne`), parse the snapshot
and build the set/unset patch (any validation throw propagates), then
issue `findOneAndUpdate` whose filter is the *spread of the located
document* (`{ ...document }`) unless `nonAtomic`.  A hit returns the
synthesized update result; a miss increments the attempt and, when
another attempt remains, sleeps `Math.random() * 10` ms before retrying
from the locate step; falling out of the loop throws the
concurrent-modification error. -/
def transformGo (queryCheck : Except String Unit) (env : TransformEnv)
    (nonAtomic : Bool) (maxRetries : Nat) (attempt : Nat) :
    TOutcome × TTrace :=
  if attempt ≤ maxRetries then
    match queryCheck with
    | .error e => (.thrown e, ⟨[], []⟩)
    | .ok _ =>
      match env.found attempt with
      | none => (.noDoc, ⟨[], []⟩)
      | some doc =>
        match env.parseFails attempt with
        | some msg => (.thrown msg, ⟨[], []⟩)
        | none =>
          let filter := if nonAtomic then docIdOnly doc else doc
          if env.writeHits attempt then
            (.ok ⟨true, 1, if env.updatedExisting attempt then 1 else 0, 0⟩,
             ⟨[filter], []⟩)
          else
            if attempt + 1 ≤ maxRetries then
              let out := transformGo queryCheck env nonAtomic maxRetries (attempt + 1)
              (out.1, ⟨filter :: out.2.filters, env.rand attempt * 10 :: out.2.delays⟩)
            else
              (.thrown (concurrentModMsg maxRetries), ⟨[filter], []⟩)
  else
    (.thrown (concurrentModMsg maxRetries), ⟨[], []⟩)
termination_by maxRetries + 1 - attempt
decreasing_by omega

/-- `transform`: `maxRetries` defaults to 3, `attempt` starts at 0. -/
def transform (queryCheck : Except String Unit) (env : TransformEnv)
    (optsMaxRetries : Option Nat) (nonAtomic : Bool) : TOutcome × TTrace :=
  transformGo queryCheck env nonAtomic (optsMaxRetries.getD 3) 0

theorem transformGo_filters_found (qc : Except String Unit)
    (env : TransformEnv) (mr : Nat) :
    ∀ (k a j : Nat) (d : Doc), mr + 1 - a ≤ k →
      (transformGo qc env false mr a).2.filters.get? j = some d →
      env.found (a + j) = some d := by
  intro k
  induction k with
  | zero =>
    intro a j d hk hget
    have ha : ¬ a ≤ mr := by omega
    unfold transformGo at hget
    rw [if_neg ha] at hget
    simp at hget
  | succ k ih =>
    intro a j d hk hget
    unfold transformGo at hget
    by_cases ha : a ≤ mr
    · rw [if_pos ha] at hget
      cases qc with
      | error e => simp at hget
      | ok u =>
        cases hf : env.found a with
        | none => rw [hf] at hget; simp at hget
        | some doc =>
          rw [hf] at hget
          cases hp : env.parseFails a with
          | some msg => rw [hp] at hget; simp at hget
          | none =>
            rw [hp] at hget
            dsimp only at hget
            by_cases hw : env.writeHits a = true
            · rw [if_pos hw] at hget
              cases j with
              | zero =>
                simp only [List.get?] at hget
                injection hget with hget
                subst hget
                simpa using hf
              | succ j' => simp [List.get?] at hget
            · rw [if_neg hw] at hget
              by_cases hnext : a + 1 ≤ mr
              · rw [if_pos hnext] at hget
                cases j with
                | zero =>
                  simp only [List.get?] at hget
                  injection hget with hget
                  subst hget
                  simpa using hf
                | succ j' =>
                  simp only [List.get?] at hget
                  have := ih (a + 1) j' d (by omega) hget
                  simpa [Nat.add_assoc, Nat.add_comm, Nat.add_left_comm] using this
              · rw [if_neg hnext] at hget
                cases j with
                | zero =>
                  simp only [List.get?] at hget
                  injection hget with hget
                  subst hget
                  simpa using hf
                | succ j' => simp [List.get?] at hget
    · rw [if_neg ha] at hget
      simp at hget

theorem transformGo_exhaustion (env : TransformEnv) (mr : Nat)
    (hall : ∀ i, i ≤ mr → env.found i ≠ none ∧ env.parseFails i = none ∧
      env.writeHits i = false) :
    ∀ (k a : Nat), mr + 1 - a ≤ k → a ≤ mr →
      (transformGo (.ok ()) env false mr a).1 = .thrown (concurrentModMsg mr) ∧
      (transformGo (.ok ()) env false mr a).2.filters.length = mr + 1 - a ∧
      (transformGo (.ok ()) env false mr a).2.delays.length = mr - a := by
  intro k
  induction k with
  | zero => intro a hk ha; omega
  | succ k ih =>
    intro a hk ha
    obtain ⟨hf, hp, hw⟩ := hall a ha
    obtain ⟨doc, hdoc⟩ := Option.ne_none_iff_exists'.mp hf
    unfold transformGo
    rw [if_pos ha, hdoc, hp]
    dsimp only
    rw [if_neg (by simp [hw])]
    by_cases hnext : a + 1 ≤ mr
    · rw [if_pos hnext]
      obtain ⟨h1, h2, h3⟩ := ih (a + 1) (by omega) hnext
      refine ⟨h1, ?_, ?_⟩
      · simp only [List.length_cons, h2]
        omega
      · simp only [List.length_cons, h3]
        omega
    · rw [if_neg hnext]
      refine ⟨rfl, ?_, ?_⟩
      · simp only [List.length_singleton]
        omega
      · simp only [List.length_nil]
        omega

theorem transformGo_delays_rand (qc : Except String Unit)
    (env : TransformEnv) (na : Bool) (mr : Nat) :
    ∀ (k a : Nat) (d : ℚ), mr + 1 - a ≤ k →
      d ∈ (transformGo qc env na mr a).2.delays →
      ∃ i, d = env.rand i * 10 := by
  intro k
  induction k with
  | zero =>
    intro a d hk hmem
    have ha : ¬ a ≤ mr := by omega
    unfold transformGo at hmem
    rw [if_neg ha] at hmem
    simp at hmem
  | succ k ih =>
    intro a d hk hmem
    unfold transformGo at hmem
    by_cases ha : a ≤ mr
    · rw [if_pos ha] at hmem
      cases qc with
      | error e => simp at hmem
      | ok u =>
        cases hf : env.found a with
        | none => rw [hf] at hmem; simp at hmem
        | some doc =>
          rw [hf] at hmem
          cases hp : env.parseFails a with
          | some msg => rw [hp] at hmem; simp at hmem
          | none =>
            rw [hp] at hmem
            dsimp only at hmem
            by_cases hw : env.writeHits a = true
            · rw [if_pos hw] at hmem; simp at hmem
            · rw [if_neg hw] at hmem
              by_cases hnext : a + 1 ≤ mr
              · rw [if_pos hnext] at hmem
                simp only [List.mem_cons] at hmem
                rcases hmem with rfl | hmem'
                · exact ⟨a, rfl⟩
                · exact ih (a + 1) d (by omega) hmem'
              · rw [if_neg hnext] at hmem
                simp at hmem
    · rw [if_neg ha] at hmem
      simp at hmem

/-- C3: under the optimistic strategy (public `transformOne` path, so
`nonAtomic` is unset), (1) `maxRetries` defaults to 3; (2) every
conditional write issued uses, as its filter, the full contents of the
document located by `findOne` at that same attempt — the write can only
succeed against a document still matching everything that was read; (3)
when the document is found but every conditional write misses, the loop
re-runs the locate step `maxRetries` further times (`maxRetries + 1`
write attempts in all) and then throws the error reporting concurrent
modification, rather than returning as if the update had applied; (4)
every backoff taken between attempts is `Math.random() * 10`, hence in
`[0, 10)` milliseconds; (5) the thrown message contains "retries due to
concurrent modifications" for every retry bound. -/
theorem transform_optimistic_behaviour :
    (∀ (qc : Except String Unit) (env : TransformEnv) (na : Bool),
      transform qc env none na = transformGo qc env na 3 0) ∧
    (∀ (qc : Except String Unit) (env : TransformEnv) (opts : Option Nat)
        (j : Nat) (d : Doc),
      (transform qc env opts false).2.filters.get? j = some d →
      env.found j = some d) ∧
    (∀ (env : TransformEnv) (opts : Option Nat),
      (∀ i, i ≤ opts.getD 3 → env.found i ≠ none ∧ env.parseFails i = none ∧
        env.writeHits i = false) →
      (transform (.ok ()) env opts false).1 =
        .thrown (concurrentModMsg (opts.getD 3)) ∧
      (transform (.ok ()) env opts false).2.filters.length = opts.getD 3 + 1 ∧
      (transform (.ok ()) env opts false).2.delays.length = opts.getD 3) ∧
    (∀ (qc : Except String Unit) (env : TransformEnv) (opts : Option Nat)
        (na : Bool),
      (∀ i, 0 ≤ env.rand i ∧ env.rand i < 1) →
      ∀ d ∈ (transform qc env opts na).2.delays, 0 ≤ d ∧ d < 10) ∧
    (∀ mr : Nat,
      strIncludes (concurrentModMsg mr)
        "retries due to concurrent modifications" = true) := by
  refine ⟨?_, ?_, ?_, ?_, ?_⟩
  · intro qc env na
    rfl
  · intro qc env opts j d hget
    have := transformGo_filters_found qc env (opts.getD 3) (opts.getD 3 + 1)
      0 j d (by omega) hget
    simpa using this
  · intro env opts hall
    have h := transformGo_exhaustion env (opts.getD 3) hall (opts.getD 3 + 1)
      0 (by omega) (by omega)
    exact ⟨h.1, by simpa using h.2.1, by simpa using h.2.2⟩
  · intro qc env opts na hrand d hd
    obtain ⟨i, rfl⟩ := transformGo_delays_rand qc env na (opts.getD 3)
      (opts.getD 3 + 1) 0 d (by omega) hd
    obtain ⟨h0, h1⟩ := hrand i
    constructor
    · positivity
    · calc env.rand i * 10 < 1 * 10 := by
            exact mul_lt_mul_of_pos_right h1 (by norm_num)
      _ = 10 := by norm_num
  · intro mr
    unfold strIncludes concurrentModMsg
    rw [String.data_append, String.data_append]
    apply charsContains_append_left
    decide

/-- Witness for C3: an environment whose conditional writes always miss
exhausts the default 3 retries: 4 write attempts, 3 sub-10ms backoffs,
and the concurrent-modification error; the filter of the first write is
the document that was read. -/
theorem transform_optimistic_behaviour_witness :
    (transform (.ok ()) ⟨fun _ => some [("_id", 1), ("v", 2)], fun _ => none,
        fun _ => false, fun _ => false, fun _ => (1 : ℚ)/2⟩ none false).1 =
      .thrown (concurrentModMsg 3) ∧
    (transform (.ok ()) ⟨fun _ => some [("_id", 1), ("v", 2)], fun _ => none,
        fun _ => false, fun _ => false, fun _ => (1 : ℚ)/2⟩ none false).2.filters.length = 4 ∧
    (transform (.ok ()) ⟨fun _ => some [("_id", 1), ("v", 2)], fun _ => none,
        fun _ => false, fun _ => false, fun _ => (1 : ℚ)/2⟩ none false).2.delays.length = 3 ∧
    ((fun (_ : Nat) => some [("_id", 1), ("v", 2)]) 0 = some [("_id", 1), ("v", 2)]) ∧
    (∀ d ∈ (transform (.ok ()) ⟨fun _ => some [("_id", 1), ("v", 2)], fun _ => none,
        fun _ => false, fun _ => false, fun _ => (1 : ℚ)/2⟩ none false).2.delays,
      0 ≤ d ∧ d < 10) := by
  have h3 := transform_optimistic_behaviour.2.2.1
    ⟨fun _ => some [("_id", 1), ("v", 2)], fun _ => none,
      fun _ => false, fun _ => false, fun _ => (1 : ℚ)/2⟩ none
    (fun i _ => ⟨by simp, rfl, rfl⟩)
  have h2 := transform_optimistic_behaviour.2.2.2.1 (.ok ())
    ⟨fun _ => some [("_id", 1), ("v", 2)], fun _ => none,
      fun _ => false, fun _ => false, fun _ => (1 : ℚ)/2⟩ none false
    (fun _ => by norm_num)
  have hfirst := transform_optimistic_behaviour.2.1 (.ok ())
    ⟨fun _ => some [("_id", 1), ("v", 2)], fun _ => none,
      fun _ => false, fun _ => false, fun _ => (1 : ℚ)/2⟩ none 0
    [("_id", 1), ("v", 2)] (by simp [transform, transformGo])
  exact ⟨h3.1, h3.2.1, h3.2.2, hfirst, h2⟩

/-! ### `transformMany` (src/src/database.ts lines 1005-1082)

Per located document id, `transformMany` calls `transform` with the query
`{ _id: docId }` (whose verification never throws, `_id` being exempt)
and aggregates.  A thrown error is logged; it aborts the batch when its
message marks a schema-validation problem (`'ZodError'`, `'Path'`,
`'does not exist'`), and the batch continues otherwise, with an extra
contention warning when the message marks retry exhaustion. -/

def isSchemaViolationMsg (msg : String) : Bool :=
  strIncludes msg "ZodError" || strIncludes msg "Path" ||
    strIncludes msg "does not exist"

def isContentionMsg (msg : String) : Bool :=
  strIncludes msg "retries due to concurrent modifications"

structure BatchState where
  detailed : List UpdateRes
  notAcknowledgedCount : Nat
  matchedCount : Nat
  modifiedCount : Nat
  loggedErrors : List String
  contentionWarns : Nat
  deriving DecidableEq

def initialBatchState : BatchState := ⟨[], 0, 0, 0, [], 0⟩

/-- Processing of one document id: a `null` result contributes nothing; a
result updates the three counters (and the detailed list when requested);
a thrown error is logged, rethrown when schema-flavoured, otherwise the
batch continues (warning once more when it was retry exhaustion). -/
def processDoc (opts : Option Nat) (detailed : Bool) (st : BatchState)
    (env : TransformEnv) : Except String BatchState :=
  match (transform (.ok ()) env opts false).1 with
  | .noDoc => .ok st
  | .ok res =>
    .ok { st with
      detailed := if detailed then st.detailed ++ [res] else st.detailed
      notAcknowledgedCount :=
        st.notAcknowledgedCount + (if res.acknowledged then 0 else 1)
      matchedCount := st.matchedCount + res.matchedCount
      modifiedCount := st.modifiedCount + res.modifiedCount }
  | .thrown msg =>
    if isSchemaViolationMsg msg then .error msg
    else .ok { st with
      loggedErrors := st.loggedErrors ++ [msg]
      contentionWarns :=
        st.contentionWarns + (if isContentionMsg msg then 1 else 0) }

def transformManyGo (opts : Option Nat) (detailed : Bool) :
    List TransformEnv → BatchState → Except String BatchState
  | [], st => .ok st
  | env :: rest, st => do
    let st' ← processDoc opts detailed st env
    transformManyGo opts detailed rest st'

def transformMany (opts : Option Nat) (detailed : Bool)
    (envs : List TransformEnv) : Except String BatchState :=
  transformManyGo opts detailed envs initialBatchState

theorem strIncludes_concurrentModMsg_false (needle : String) (c : Char)
    (hc : c ∈ needle.data)
    (hpre : c ∉ ("Transform operation failed after ").data)
    (hsuf : c ∉ (" retries due to concurrent modifications").data)
    (hdig : c ∉ ("0123456789").data) :
    ∀ mr, strIncludes (concurrentModMsg mr) needle = false := by
  intro mr
  by_contra h
  rw [Bool.not_eq_false] at h
  have hmem : c ∈ (concurrentModMsg mr).data :=
    charsContains_subset _ _ h c hc
  rw [concurrentModMsg, String.data_append, String.data_append] at hmem
  simp only [List.mem_append] at hmem
  rcases hmem with (hm | hm) | hm
  · exact hpre hm
  · exact hdig (natRepr_digits mr c hm)
  · exact hsuf hm

theorem concurrentModMsg_not_schemaViolation (mr : Nat) :
    isSchemaViolationMsg (concurrentModMsg mr) = false := by
  unfold isSchemaViolationMsg
  rw [strIncludes_concurrentModMsg_false "ZodError" 'Z' (by decide) (by decide)
      (by decide) (by decide) mr,
    strIncludes_concurrentModMsg_false "Path" 'P' (by decide) (by decide)
      (by decide) (by decide) mr,
    strIncludes_concurrentModMsg_false "does not exist" 'x' (by decide)
      (by decide) (by decide) (by decide) mr]
  rfl

theorem concurrentModMsg_isContention (mr : Nat) :
    isContentionMsg (concurrentModMsg mr) = true := by
  unfold isContentionMsg strIncludes concurrentModMsg
  rw [String.data_append, String.data_append]
  apply charsContains_append_left
  decide

/-- C4: in `transformMany`, a document whose transform throws a
schema-violation-classified error (message containing `'ZodError'`,
`'Path'` or `'does not exist'`) aborts the whole batch: the batch result
is that error, rethrown, and the documents after it are never processed
(the result does not depend on them).  A document whose transform throws
a non-schema error — in particular the retry-exhaustion error, which is
never schema-classified and is always contention-classified — is logged
(and warned about when it marks contention) and the batch continues with
the remaining documents. -/
theorem transformMany_error_handling :
    (∀ (opts : Option Nat) (det : Bool) (env : TransformEnv) (msg : String)
        (st : BatchState) (post post' : List TransformEnv),
      (transform (.ok ()) env opts false).1 = .thrown msg →
      isSchemaViolationMsg msg = true →
      transformManyGo opts det (env :: post) st = .error msg ∧
      transformManyGo opts det (env :: post) st =
        transformManyGo opts det (env :: post') st) ∧
    (∀ (opts : Option Nat) (det : Bool) (env : TransformEnv) (msg : String)
        (st : BatchState) (post : List TransformEnv),
      (transform (.ok ()) env opts false).1 = .thrown msg →
      isSchemaViolationMsg msg = false →
      transformManyGo opts det (env :: post) st =
        transformManyGo opts det post { st with
          loggedErrors := st.loggedErrors ++ [msg]
          contentionWarns :=
            st.contentionWarns + (if isContentionMsg msg then 1 else 0) }) ∧
    (∀ mr : Nat, isSchemaViolationMsg (concurrentModMsg mr) = false ∧
      isContentionMsg (concurrentModMsg mr) = true) := by
  refine ⟨?_, ?_, ?_⟩
  · intro opts det env msg st post post' ht hclass
    have hp : processDoc opts det st env = .error msg := by
      unfold processDoc
      rw [ht]
      dsimp only
      rw [hclass]
      rfl
    constructor
    · show (processDoc opts det st env >>= fun st' =>
        transformManyGo opts det post st') = .error msg
      rw [hp, exceptBind_error]
    · show (processDoc opts det st env >>= fun st' =>
          transformManyGo opts det post st') =
        (processDoc opts det st env >>= fun st' =>
          transformManyGo opts det post' st')
      rw [hp, exceptBind_error, exceptBind_error]
  · intro opts det env msg st post ht hclass
    have hp : processDoc opts det st env = .ok { st with
        loggedErrors := st.loggedErrors ++ [msg]
        contentionWarns :=
          st.contentionWarns + (if isContentionMsg msg then 1 else 0) } := by
      unfold processDoc
      rw [ht]
      dsimp only
      rw [hclass]
      rfl
    show (processDoc opts det st env >>= fun st' =>
      transformManyGo opts det post st') = _
    rw [hp, exceptBind_ok]
  · intro mr
    exact ⟨concurrentModMsg_not_schemaViolation mr,
      concurrentModMsg_isContention mr⟩

/-- Witness for C4: a document whose parse throws a `'Path ... does not
exist'` error aborts a two-document batch before the second document; a
document that exhausts its retries is logged and the singleton batch
still completes with a counted contention warning. -/
theorem transformMany_error_handling_witness :
    transformManyGo none false
      [⟨fun _ => some [("_id", 1)], fun _ => some "Path lookup failed: does not exist",
        fun _ => false, fun _ => false, fun _ => 0⟩,
       ⟨fun _ => some [("_id", 2)], fun _ => none,
        fun _ => true, fun _ => true, fun _ => 0⟩] initialBatchState =
      .error "Path lookup failed: does not exist" ∧
    transformManyGo none false
      [⟨fun _ => some [("_id", 1)], fun _ => none,
        fun _ => false, fun _ => false, fun _ => 0⟩] initialBatchState =
      .ok ⟨[], 0, 0, 0, [concurrentModMsg 3], 1⟩ := by
  constructor
  · exact (transformMany_error_handling.1 none false _
      "Path lookup failed: does not exist" initialBatchState _ []
      (by simp [transform, transformGo]) (by decide)).1
  · have h := transformMany_error_handling.2.1 none false
      ⟨fun _ => some [("_id", 1)], fun _ => none,
        fun _ => false, fun _ => false, fun _ => 0⟩ (concurrentModMsg 3)
      initialBatchState []
      (by simp [transform, transformGo])
      (concurrentModMsg_not_schemaViolation 3)
    rw [h]
    rw [concurrentModMsg_isContention 3]
    rfl

theorem transformGo_ok_ack (qc : Except String Unit) (env : TransformEnv)
    (na : Bool) (mr : Nat) :
    ∀ (k a : Nat) (res : UpdateRes), mr + 1 - a ≤ k →
      (transformGo qc env na mr a).1 = .ok res →
      res.acknowledged = true ∧ res.matchedCount = 1 := by
  intro k
  induction k with
  | zero =>
    intro a res hk hok
    have ha : ¬ a ≤ mr := by omega
    unfold transformGo at hok
    rw [if_neg ha] at hok
    simp at hok
  | succ k ih =>
    intro a res hk hok
    unfold transformGo at hok
    by_cases ha : a ≤ mr
    · rw [if_pos ha] at hok
      cases qc with
      | error e => simp at hok
      | ok u =>
        cases hf : env.found a with
        | none => rw [hf] at hok; simp at hok
        | some doc =>
          rw [hf] at hok
          cases hp : env.parseFails a with
          | some msg => rw [hp] at hok; simp at hok
          | none =>
            rw [hp] at hok
            dsimp only at hok
            by_cases hw : env.writeHits a = true
            · rw [if_pos hw] at hok
              simp only [TOutcome.ok.injEq] at hok
              subst hok
              exact ⟨rfl, rfl⟩
            · rw [if_neg hw] at hok
              by_cases hnext : a + 1 ≤ mr
              · rw [if_pos hnext] at hok
                exact ih (a + 1) res (by omega) hok
              · rw [if_neg hnext] at hok
                simp at hok
    · rw [if_neg ha] at hok
      simp at hok

theorem transformManyGo_notAck (opts : Option Nat) (det : Bool) :
    ∀ (envs : List TransformEnv) (st st' : BatchState),
      transformManyGo opts det envs st = .ok st' →
      st'.notAcknowledgedCount = st.notAcknowledgedCount := by
  intro envs
  induction envs with
  | nil =>
    intro st st' h
    injection h with h
    subst h
    rfl
  | cons env rest ih =>
    intro st st' h
    simp only [transformManyGo] at h
    cases hp : processDoc opts det st env with
    | error e => rw [hp, exceptBind_error] at h; exact absurd h (by simp)
    | ok st1 =>
      rw [hp, exceptBind_ok] at h
      have h2 := ih st1 st' h
      rw [h2]
      unfold processDoc at hp
      cases ht : (transform (.ok ()) env opts false).1 with
      | noDoc =>
        rw [ht] at hp
        injection hp with hp
        subst hp
        rfl
      | ok res =>
        rw [ht] at hp
        injection hp with hp
        subst hp
        have hack := (transformGo_ok_ack (.ok ()) env false (opts.getD 3)
          (opts.getD 3 + 1) 0 res (by omega) ht).1
        simp [hack]
      | thrown msg =>
        rw [ht] at hp
        dsimp only at hp
        by_cases hclass : isSchemaViolationMsg msg = true
        · rw [if_pos hclass] at hp
          exact absurd hp (by simp)
        · rw [if_neg hclass] at hp
          injection hp with hp
          subst hp
          rfl

/-- C10: whenever the optimistic transform's conditional write returns a
document, the update result it hands back has `acknowledged = true` and
`matchedCount = 1` (they are literals in the synthesized result), and
consequently every completed `transformMany` reports
`notAcknowledgedCount = 0`. -/
theorem transform_result_acknowledged :
    (∀ (qc : Except String Unit) (env : TransformEnv) (opts : Option Nat)
        (na : Bool) (res : UpdateRes),
      (transform qc env opts na).1 = .ok res →
      res.acknowledged = true ∧ res.matchedCount = 1) ∧
    (∀ (opts : Option Nat) (det : Bool) (envs : List TransformEnv)
        (st' : BatchState),
      transformMany opts det envs = .ok st' →
      st'.notAcknowledgedCount = 0) := by
  constructor
  · intro qc env opts na res hok
    exact transformGo_ok_ack qc env na (opts.getD 3) (opts.getD 3 + 1) 0 res
      (by omega) hok
  · intro opts det envs st' h
    exact transformManyGo_notAck opts det envs initialBatchState st' h

/-- Witness for C10: a first-attempt write hit returns an acknowledged
single-match result, and the one-document batch reports zero
not-acknowledged updates. -/
theorem transform_result_acknowledged_witness :
    (UpdateRes.mk true 1 1 0).acknowledged = true ∧
    (UpdateRes.mk true 1 1 0).matchedCount = 1 ∧
    ∀ st' : BatchState,
      transformMany none false
        [⟨fun _ => some [("_id", 1)], fun _ => none,
          fun _ => true, fun _ => true, fun _ => 0⟩] = .ok st' →
      st'.notAcknowledgedCount = 0 := by
  refine ⟨?_, ?_, ?_⟩
  · exact (transform_result_acknowledged.1 (.ok ())
      ⟨fun _ => some [("_id", 1)], fun _ => none,
        fun _ => true, fun _ => true, fun _ => 0⟩ none false ⟨true, 1, 1, 0⟩
      (by simp [transform, transformGo])).1
  · exact (transform_result_acknowledged.1 (.ok ())
      ⟨fun _ => some [("_id", 1)], fun _ => none,
        fun _ => true, fun _ => true, fun _ => 0⟩ none false ⟨true, 1, 1, 0⟩
      (by simp [transform, transformGo])).2
  · intro st' h
    exact transform_result_acknowledged.2 none false _ st' h

/-! ### `checkTransactionSupport` and strategy dispatch
(src/README.md lines 312-355 and 395-427)

`transactionsSupported` starts `null` and is assigned only inside
`checkTransactionSupport` (no other line of the revision writes it).  The
probe runs a trivial transaction (insert + delete in a scratch
collection).  A thrown error is the transactions-not-supported failure
when `error.code === 20`, `error.codeName === "IllegalOperation"` or the
message includes `'Transaction numbers are only allowed'`; such an error
sets the flag to `false`; any other error is rethrown into the outer
`catch`, which also sets the flag to `false`; a failure outside the inner
`try` (e.g. `startSession`) lands in the outer `catch` directly. -/

structure ProbeError where
  code : Option Nat
  codeName : String
  message : String
  deriving DecidableEq

def isTxnUnsupportedError (e : ProbeError) : Bool :=
  e.code = some 20 || e.codeName = "IllegalOperation" ||
    strIncludes e.message "Transaction numbers are only allowed"

inductive ProbeOutcome : Type where
  | txnOk : ProbeOutcome
  | txnFailed (e : ProbeError) : ProbeOutcome
  | sessionFailed : ProbeOutcome
  deriving DecidableEq

/-- `checkTransactionSupport`: returns the cached flag when it is
non-null; otherwise runs the probe once and caches the verdict.  Result:
(returned support value, new flag). -/
def checkTransactionSupport (flag : Option Bool) (probe : ProbeOutcome) :
    Bool × Option Bool :=
  match flag with
  | some b => (b, some b)
  | none =>
    match probe with
    | .txnOk => (true, some true)
    | .txnFailed e =>
      if isTxnUnsupportedError e then (false, some false)
      else (false, some false)
    | .sessionFailed => (false, some false)

inductive TransformStrategy : Type where
  | transactional : TransformStrategy
  | optimistic : TransformStrategy
  deriving DecidableEq

/-- `transformOne`: consult `checkTransactionSupport`, then take the
session/transaction path or the optimistic-locking fallback. -/
def transformOneStrategy (flag : Option Bool) (probe : ProbeOutcome) :
    TransformStrategy × Option Bool :=
  let r := checkTransactionSupport flag probe
  (if r.1 then .transactional else .optimistic, r.2)

/-- C7: the transaction-support flag starts `null` on every constructed
facade; once the flag is non-null, `checkTransactionSupport` returns the
cached value and leaves the flag untouched (it is mutated nowhere else,
so it is never reset for the facade's lifetime); the one probe always
pins the flag to the value it returns; probe success pins the
transactional strategy with the flag `true`, a probe failure — whether
the specific transactions-not-supported error or any unrelated error —
pins the optimistic strategy with the flag `false`; and once pinned, the
strategy follows the cached flag on every later call. -/
theorem transactionSupport_flag_lifecycle :
    (∀ (fuel : Nat) (schemas : List (String × ZSchema)) (f : ZongoFacade),
      zongoConstructor fuel schemas = .ok f → f.transactionsSupported = none) ∧
    (∀ (b : Bool) (probe : ProbeOutcome),
      checkTransactionSupport (some b) probe = (b, some b)) ∧
    (∀ probe : ProbeOutcome,
      (checkTransactionSupport none probe).2 =
        some (checkTransactionSupport none probe).1) ∧
    (transformOneStrategy none .txnOk = (.transactional, some true)) ∧
    (∀ e : ProbeError,
      transformOneStrategy none (.txnFailed e) = (.optimistic, some false)) ∧
    (transformOneStrategy none .sessionFailed = (.optimistic, some false)) ∧
    (∀ (b : Bool) (probe : ProbeOutcome),
      transformOneStrategy (some b) probe =
        (if b then .transactional else .optimistic, some b)) := by
  refine ⟨?_, ?_, ?_, ?_, ?_, ?_, ?_⟩
  · intro fuel schemas f h
    unfold zongoConstructor at h
    cases hid : checkProtectedIdField schemas with
    | error e =>
      rw [hid, exceptBind_error] at h
      exact absurd h (by simp)
    | ok u =>
      rw [hid, exceptBind_ok] at h
      cases hco : collectOptionalFields schemas with
      | error e =>
        rw [hco, exceptBind_error] at h
        exact absurd h (by simp)
      | ok v =>
        rw [hco, exceptBind_ok] at h
        injection h with h
        subst h
        rfl
  · intro b probe
    rfl
  · intro probe
    cases probe with
    | txnOk => rfl
    | txnFailed e =>
      by_cases he : isTxnUnsupportedError e = true <;>
        simp [checkTransactionSupport, he]
    | sessionFailed => rfl
  · rfl
  · intro e
    by_cases he : isTxnUnsupportedError e = true <;>
      simp [transformOneStrategy, checkTransactionSupport, he]
  · rfl
  · intro b probe
    cases b <;> rfl

/-- Witness for C7: a freshly constructed facade has a `null` flag, and
both classified and unrelated probe errors pin the optimistic strategy. -/
theorem transactionSupport_flag_lifecycle_witness :
    (ZongoFacade.mk (some [("c", [("a", ZSchema.zString)])]) [] none).transactionsSupported
      = none ∧
    transformOneStrategy none (.txnFailed ⟨some 20, "", ""⟩) =
      (.optimistic, some false) ∧
    transformOneStrategy none (.txnFailed ⟨none, "", "weird network error"⟩) =
      (.optimistic, some false) := by
  refine ⟨?_, ?_, ?_⟩
  · exact transactionSupport_flag_lifecycle.1 10
      [("c", ZSchema.zObject (.cons "a" .zString .nil))] _ rfl
  · exact transactionSupport_flag_lifecycle.2.2.2.2.1 ⟨some 20, "", ""⟩
  · exact transactionSupport_flag_lifecycle.2.2.2.2.1 ⟨none, "", "weird network error"⟩

end Zongo
